import Mathlib

/-!
Verification of the cell-aggregation engine in `eg/sg.go` (repository koden-km/vu).

The Go source builds a "trooper" out of nested fill-counting containers:

* `cbox` (sg.go:331-384) — the shared attach/detach/reset state machine with
  four behaviour hooks (`trashc`, `mergec`, `addc`, `remc`) installed by the
  owning super-struct;
* `cube` (sg.go:489-572) — a leaf container of capacity 8 owning up to 8
  discrete cell primitives or one merged primitive;
* `block` (sg.go:390-481) — a panel owning child cubes plus one slab primitive;
* `trooper` (sg.go:138-316) — the top-level organism.

This file is a shallow embedding: Go structs become Lean structures, mutation
becomes explicit state passing, Go `int` becomes `Int`, and `float64`
coordinates become `ℚ` (every arithmetic operation performed on them in the
modelled code is exact on the small dyadic values that occur, and the only
consumption of coordinates is by order comparisons).  Scene-host primitives
(`vu.Part`) are modelled by presence/identity only: the engine never reads
anything back from a primitive handle, it only creates and destroys them.
-/

/-- State of the Go `cbox` struct (sg.go:331-337) generic over the owning
super-struct's own mutable data `σ` (the Go code stores closures over the
owner in the `trashc/mergec/addc/remc` fields; here the owner data is the
`owner` field and the hooks are passed separately as a `Hooks` value). -/
structure CBox (σ : Type) where
  ccnt : Int
  cmax : Int
  cx : ℚ
  cy : ℚ
  cz : ℚ
  csize : ℚ
  owner : σ
deriving DecidableEq

attribute [ext] CBox

/-- The four behaviour hooks a super-struct installs into its `cbox`
(sg.go:335-336).  Each Go hook reads the shared `cbox` state and mutates only
the owner's own data (none of the actual hooks in sg.go writes `ccnt`/`cmax`
of the node it belongs to), so a hook is a function from the whole node state
to new owner data. -/
structure Hooks (σ : Type) where
  trashc : CBox σ → σ
  mergec : CBox σ → σ
  addc : CBox σ → σ
  remc : CBox σ → σ

/-- `cbox.attach` (sg.go:342-353): guard `c.ccnt >= 0 && c.ccnt < c.cmax`;
on success increment `ccnt`, then run `mergec` if the new count reached
`cmax`, else `addc`.  Returns the new state and the Go boolean result. -/
def attach {σ : Type} (h : Hooks σ) (c : CBox σ) : CBox σ × Bool :=
  if 0 ≤ c.ccnt ∧ c.ccnt < c.cmax then
    if c.ccnt + 1 = c.cmax then
      ({ c with ccnt := c.ccnt + 1, owner := h.mergec { c with ccnt := c.ccnt + 1 } }, true)
    else
      ({ c with ccnt := c.ccnt + 1, owner := h.addc { c with ccnt := c.ccnt + 1 } }, true)
  else (c, false)

/-- `attach` iterated `n` times, discarding the boolean results (the shape of
the rebuild loop inside `cbox.reset`, sg.go:378-380). -/
def attachN {σ : Type} (h : Hooks σ) (c : CBox σ) : Nat → CBox σ
  | 0 => c
  | n + 1 => attachN h (attach h c).1 n

/-- `cbox.reset` (sg.go:372-381): run `trashc`, zero the count, clamp the
requested count to at most `cmax` (a negative request simply makes the Go
`for` loop run zero times), then `attach` that many times. -/
def reset {σ : Type} (h : Hooks σ) (c : CBox σ) (cellCount : Int) : CBox σ :=
  attachN h { c with owner := h.trashc c, ccnt := 0 }
    (if cellCount > c.cmax then c.cmax else cellCount).toNat

/-- `cbox.detach` (sg.go:358-369): guard `c.ccnt > 0 && c.ccnt <= c.cmax`;
a full box is rebuilt via `reset(cmax-1)`, otherwise run `remc` and
decrement. -/
def detach {σ : Type} (h : Hooks σ) (c : CBox σ) : CBox σ × Bool :=
  if 0 < c.ccnt ∧ c.ccnt ≤ c.cmax then
    if c.ccnt = c.cmax then (reset h c (c.cmax - 1), true)
    else ({ c with owner := h.remc c, ccnt := c.ccnt - 1 }, true)
  else (c, false)

/-- The three mutating operations a `cbox` is driven by over its lifetime
(sg.go: `attach`, `detach`, `reset`). -/
inductive Op where
  | attach : Op
  | detach : Op
  | reset : Int → Op
deriving DecidableEq

/-- Apply one operation to a node. -/
def applyOp {σ : Type} (h : Hooks σ) (c : CBox σ) : Op → CBox σ
  | Op.attach => (attach h c).1
  | Op.detach => (detach h c).1
  | Op.reset k => reset h c k

/-- Apply a sequence of operations, first operation first. -/
def applyOps {σ : Type} (h : Hooks σ) (c : CBox σ) : List Op → CBox σ
  | [] => c
  | o :: os => applyOps h (applyOp h c o) os

/-- A 3-vector of exact coordinates, standing in for `lin.V3` (`float64`
components in Go; every coordinate built by the modelled code is a small
dyadic rational on which the performed operations are exact). -/
structure V3 where
  x : ℚ
  y : ℚ
  z : ℚ
deriving DecidableEq

/-- `csort.Dtoc` (sg.go:585): squared distance of a candidate centre from the
world origin — the radial sort metric used by `edgeSort`. -/
def csortDtoc (v : V3) : ℚ :=
  v.x * v.x + v.y * v.y + v.z * v.z

/-- `ssort.Dtoc` (sg.go:599-606): project the candidate onto the panel's
reference normal (`dot := v.Dot(normal)`, `d := normal * dot`) and use `|d|²`
— the planar-projection metric used by `panelSort`. -/
def ssortDtoc (nx ny nz : ℚ) (v : V3) : ℚ :=
  (nx * (v.x * nx + v.y * ny + v.z * nz)) * (nx * (v.x * nx + v.y * ny + v.z * nz)) +
    (ny * (v.x * nx + v.y * ny + v.z * nz)) * (ny * (v.x * nx + v.y * ny + v.z * nz)) +
    (nz * (v.x * nx + v.y * ny + v.z * nz)) * (nz * (v.x * nx + v.y * ny + v.z * nz))

/-- The call `sort.Sort(c.centers)` in `edgeSort`/`panelSort`
(sg.go:525-534).  Go's `sort.Sort` runs plain insertion sort for spans of at
most 12 elements, and the centre slices always have exactly 8, so the sort
that actually executes is insertion sort — the stable sort; it is modelled by
`List.insertionSort` under the non-strict key order (Go moves an element past
its predecessor only when `Less` holds strictly, which produces exactly the
stable, non-decreasing arrangement). -/
def sortSort (key : V3 → ℚ) (l : List V3) : List V3 :=
  l.insertionSort (fun a b => key a ≤ key b)

/-- The eight unsorted candidate cell centres computed by `newCube`
(sg.go:510-521): all sign combinations of a quarter-cell offset, in source
order. -/
def cubeCenters (x y z s : ℚ) : List V3 :=
  [⟨x - s * (1/4), y - s * (1/4), z - s * (1/4)⟩,
   ⟨x - s * (1/4), y - s * (1/4), z + s * (1/4)⟩,
   ⟨x - s * (1/4), y + s * (1/4), z - s * (1/4)⟩,
   ⟨x - s * (1/4), y + s * (1/4), z + s * (1/4)⟩,
   ⟨x + s * (1/4), y - s * (1/4), z - s * (1/4)⟩,
   ⟨x + s * (1/4), y - s * (1/4), z + s * (1/4)⟩,
   ⟨x + s * (1/4), y + s * (1/4), z - s * (1/4)⟩,
   ⟨x + s * (1/4), y + s * (1/4), z + s * (1/4)⟩]

/-- A primitive owned by a cube: the discrete sub-cell materialised at sorted
centre index `i` (`cube.addCell`, sg.go:537-545, places each new cell at
`c.centers[c.ccnt-1]`, so a cell is identified by that index — the centre
list is fixed once sorted at construction), or the single merged cube
(`cube.merge`, sg.go:557-565). -/
inductive Prim where
  | cell : Int → Prim
  | merged : Prim
deriving DecidableEq

/-- The Go `cube` struct (sg.go:489-495): a `cbox` whose owner data is its
list of materialised cells. -/
abbrev Cube := CBox (List Prim)

/-- The four hooks `newCube` installs (sg.go:505-508):
`trash` drops every cell (sg.go:568-572); `merge` drops every cell and
materialises the single consolidated cube (sg.go:557-565); `addCell` appends
the cell at sorted centre `ccnt-1` (sg.go:537-545); `removeCell` pops the
most recently added cell (sg.go:548-552). -/
def cubeHooks : Hooks (List Prim) where
  trashc := fun _ => []
  mergec := fun _ => [Prim.merged]
  addc := fun c => c.owner ++ [Prim.cell (c.ccnt - 1)]
  remc := fun c => c.owner.dropLast

/-- `newCube` (sg.go:498-523): an empty cube of capacity 8 at the given
centre.  (The static candidate-centre list it also precomputes is
`cubeCenters`; only its length and sort order matter to the state machine.) -/
def newCube (x y z cubeSize : ℚ) : Cube :=
  { ccnt := 0, cmax := 8, cx := x, cy := y, cz := z, csize := cubeSize, owner := [] }

def cubeAttach (c : Cube) : Cube × Bool := attach cubeHooks c

def cubeDetach (c : Cube) : Cube × Bool := detach cubeHooks c

def cubeReset (c : Cube) (k : Int) : Cube := reset cubeHooks c k

/-- `cube.edgeSort` (sg.go:525-528): sort the centres radially, then
`reset(startCount)`.  The sort touches only the static centre list, so the
state effect is the reset. -/
def cubeEdgeSort (c : Cube) (startCount : Int) : Cube := cubeReset c startCount

/-- `cube.panelSort` (sg.go:530-534): sort the centres against the panel
normal, then `reset(startCount)`; same state effect as `edgeSort`. -/
def cubePanelSort (c : Cube) (startCount : Int) : Cube := cubeReset c startCount

/-- The representation invariant of a cube (sg.go:485-488: "cells ... is
between 0 (nothing visible), 1-7 (partial) and 8 (merged)"): below capacity
it owns exactly the discrete cells at sorted centre indices `0..ccnt-1`; at
capacity it owns exactly the one merged primitive. -/
def cubeGood (c : Cube) : Prop :=
  c.cmax = 8 ∧ 0 ≤ c.ccnt ∧ c.ccnt ≤ 8 ∧
    c.owner = if c.ccnt = 8 then [Prim.merged]
      else (List.range c.ccnt.toNat).map (fun (i : Nat) => Prim.cell (i : Int))

instance (c : Cube) : Decidable (cubeGood c) := by
  unfold cubeGood
  infer_instance

/-- The claim-level mutual-exclusion property of a cube: either exploded
(count below 8, exactly `count` discrete sub-cells, no merged primitive) or
merged (count 8, exactly the one merged primitive, no discrete sub-cell). -/
def cubeExcl (c : Cube) : Prop :=
  (c.ccnt < 8 ∧ c.owner.length = c.ccnt.toNat ∧ Prim.merged ∉ c.owner) ∨
    (c.ccnt = 8 ∧ c.owner = [Prim.merged])

/-- Owner data of the Go `block` struct (sg.go:390-397): its level (used for
slab scale), the slab primitive (modelled by presence — the engine never
reads it back), and the owned child cubes in construction order. -/
structure BlockOwn where
  lvl : Int
  slab : Bool
  cubes : List Cube
deriving DecidableEq

/-- The Go `block` (panel): a `cbox` owning `BlockOwn`. -/
abbrev Block := CBox BlockOwn

/-- Inner scan of `block.addCell` (sg.go:435-441) for one `addeven` value:
attach to the first child cube whose count is at most `addeven`. -/
def blockAddScan (addeven : Int) : List Cube → Option (List Cube)
  | [] => none
  | c :: cs =>
    if c.ccnt ≤ addeven then some ((cubeAttach c).1 :: cs)
    else (blockAddScan addeven cs).map (fun cs2 => c :: cs2)

/-- Outer loop of `block.addCell` (sg.go:434-444): raise `addeven` from 0,
returning at the first successful scan.  `fuel` is the remaining number of
loop iterations (`b.cubes[0].cmax - addeven`); when it runs out the Go code
only logs "should never reach here" and returns with nothing changed. -/
def blockAddLoop (cubes : List Cube) (addeven : Int) : Nat → List Cube
  | 0 => cubes
  | n + 1 =>
    match blockAddScan addeven cubes with
    | some cs => cs
    | none => blockAddLoop cubes (addeven + 1) n

/-- `block.addCell` (sg.go:434-444).  The Go code reads `b.cubes[0].cmax` as
the loop bound (and would panic on a cube-less panel; such a panel has
capacity 0, so its `addc` hook is unreachable — modelled as fuel 0). -/
def blockAddCell (b : Block) : BlockOwn :=
  { b.owner with
    cubes := blockAddLoop b.owner.cubes 0
      (match b.owner.cubes with
       | [] => 0
       | c :: _ => c.cmax.toNat) }

/-- Scan of `block.removeCell` (sg.go:446-453): detach from the first child
cube whose `detach` reports success; on total failure Go only logs. -/
def blockRemoveScan : List Cube → Option (List Cube)
  | [] => none
  | c :: cs =>
    if (cubeDetach c).2 then some ((cubeDetach c).1 :: cs)
    else (blockRemoveScan cs).map (fun cs2 => c :: cs2)

/-- `block.removeCell` (sg.go:446-453). -/
def blockRemoveCell (b : Block) : BlockOwn :=
  { b.owner with
    cubes :=
      match blockRemoveScan b.owner.cubes with
      | some cs => cs
      | none => b.owner.cubes }

/-- `block.trash` (sg.go:473-481): drop the slab if present and reset every
child cube to empty. -/
def blockTrashOwn (b : Block) : BlockOwn :=
  { b.owner with slab := false, cubes := b.owner.cubes.map (fun c => cubeReset c 0) }

/-- `block.merge` (sg.go:456-469): trash, then materialise the single slab
(its location/scale are pure scene-host output). -/
def blockMergeOwn (b : Block) : BlockOwn :=
  { blockTrashOwn b with slab := true }

/-- The four hooks `newBlock` installs (sg.go:409-412). -/
def blockHooks : Hooks BlockOwn where
  trashc := blockTrashOwn
  mergec := blockMergeOwn
  addc := blockAddCell
  remc := blockRemoveCell

/-- `newBlock` (sg.go:401-414): an empty panel at the given centre with
capacity `(level-1)² · 8` and no cubes yet. -/
def newBlock (x y z : ℚ) (level : Int) : Block :=
  { ccnt := 0, cmax := (level - 1) * (level - 1) * 8, cx := x, cy := y, cz := z,
    csize := 0, owner := { lvl := level, slab := false, cubes := [] } }

def blockAttach (b : Block) : Block × Bool := attach blockHooks b

def blockDetach (b : Block) : Block × Bool := detach blockHooks b

def blockReset (b : Block) (k : Int) : Block := reset blockHooks b k

/-- The child cube created by `block.addCube` (sg.go:418-427): `newCube`
followed by `panelSort(·, 4)` under the normal matching the panel's dominant
axis.  The three guarded branches differ only in that normal (which fixes
the static centre order); each has the same state effect `reset 4`.  If no
guard matched (never the case for the six panel centres the program builds)
the cube would stay empty. -/
def blockAddCubeChild (b : Block) (x y z s : ℚ) : Cube :=
  if (b.cx > b.cy ∧ b.cx > b.cz) ∨ (b.cx < b.cy ∧ b.cx < b.cz) then
    cubePanelSort (newCube x y z s) 4
  else if (b.cy > b.cx ∧ b.cy > b.cz) ∨ (b.cy < b.cx ∧ b.cy < b.cz) then
    cubePanelSort (newCube x y z s) 4
  else if (b.cz > b.cx ∧ b.cz > b.cy) ∨ (b.cz < b.cx ∧ b.cz < b.cy) then
    cubePanelSort (newCube x y z s) 4
  else newCube x y z s

/-- `block.addCube` (sg.go:418-432): record the cell size, create and seed
the child cube, then add 4 to the panel's own count and append the child
(the Go `if c != nil` guard is always true). -/
def blockAddCube (b : Block) (x y z cubeSize : ℚ) : Block :=
  { b with
    csize := cubeSize
    ccnt := b.ccnt + 4
    owner := { b.owner with cubes := b.owner.cubes ++ [blockAddCubeChild b x y z cubeSize] } }

/-- One element of `trooper.bits` (sg.go:143): either an edge/corner cube or
a panel (the Go `box` interface, sg.go:320-327). -/
inductive TBit where
  | cube : Cube → TBit
  | block : Block → TBit
deriving DecidableEq

def tbitCcnt : TBit → Int
  | TBit.cube c => c.ccnt
  | TBit.block b => b.ccnt

def tbitCmax : TBit → Int
  | TBit.cube c => c.cmax
  | TBit.block b => b.cmax

def tbitAttach : TBit → TBit × Bool
  | TBit.cube c => (TBit.cube (cubeAttach c).1, (cubeAttach c).2)
  | TBit.block b => (TBit.block (blockAttach b).1, (blockAttach b).2)

def tbitDetach : TBit → TBit × Bool
  | TBit.cube c => (TBit.cube (cubeDetach c).1, (cubeDetach c).2)
  | TBit.block b => (TBit.block (blockDetach b).1, (blockDetach b).2)

def tbitReset (t : TBit) (k : Int) : TBit :=
  match t with
  | TBit.cube c => TBit.cube (cubeReset c k)
  | TBit.block b => TBit.block (blockReset b k)

def tbitTrash : TBit → TBit
  | TBit.cube c => TBit.cube { c with owner := [] }
  | TBit.block b => TBit.block { b with owner := blockTrashOwn b }

/-- The Go `trooper` struct (sg.go:138-146).  The scene-host parts `neo` and
`center` are modelled by presence. -/
structure Trooper where
  lvl : Int
  mid : Int
  neo : Bool
  center : Bool
  bits : List TBit
deriving DecidableEq

/-- The mutable state of the `newTrooper` construction loop (sg.go:182-230):
the six panels created first (sg.go:174-179, in source order `+x, -x, +y,
-y, +z, -z`) and the corner/edge cubes appended so far. -/
structure TrState where
  b0 : Block
  b1 : Block
  b2 : Block
  b3 : Block
  b4 : Block
  b5 : Block
  cubes : List Cube
deriving DecidableEq

def blockAt (st : TrState) : Nat → Block
  | 0 => st.b0
  | 1 => st.b1
  | 2 => st.b2
  | 3 => st.b3
  | 4 => st.b4
  | _ => st.b5

def updateBlock (st : TrState) (i : Nat) (f : Block → Block) : TrState :=
  match i with
  | 0 => { st with b0 := f st.b0 }
  | 1 => { st with b1 := f st.b1 }
  | 2 => { st with b2 := f st.b2 }
  | 3 => { st with b3 := f st.b3 }
  | 4 => { st with b4 := f st.b4 }
  | _ => { st with b5 := f st.b5 }

/-- The exact cell-centre coordinate `m·centerOffset` used by the
`newTrooper` scan, where the running multiplier is `m = -lvl + 2·c`
(initialised to `-lvl`, stepped by 2 per loop iteration, sg.go:182-229; the
small integers and their halving-based products are exact in `float64`). -/
def cellCoord (lvl : Int) (co : ℚ) (c : Int) : ℚ :=
  ((-lvl + 2 * c : Int) : ℚ) * co

/-- The side-cube routing chain of `newTrooper` (sg.go:204-217): which of the
six panels (if any) receives `addCube` for a boundary lattice point, given
the exact cell-centre coordinates `x = mx·centerOffset` etc. -/
def sideRoute (lvl cx cy cz : Int) (x y z : ℚ) : Option Nat :=
  if cx = lvl ∧ x > y ∧ x > z then some 0
  else if cx = 0 ∧ x < y ∧ x < z then some 1
  else if cy = lvl ∧ y > x ∧ y > z then some 2
  else if cy = 0 ∧ y < x ∧ y < z then some 3
  else if cz = lvl ∧ z > x ∧ z > y then some 4
  else if cz = 0 ∧ z < x ∧ z < y then some 5
  else none

/-- The classification chain of `newTrooper` (sg.go:190-218) condensed into
the panel-routing decision for one lattice point: corner and edge points
(the first two branches) never route to a panel, remaining boundary points
run `sideRoute`, interior points do nothing. -/
def pointRoute (lvl : Int) (co : ℚ) (cx cy cz : Int) : Option Nat :=
  if (cx = 0 ∨ cx = lvl) ∧ (cy = 0 ∨ cy = lvl) ∧ (cz = 0 ∨ cz = lvl) then none
  else if ((cx = 0 ∨ cx = lvl) ∧ (cy = 0 ∨ cy = lvl)) ∨
      ((cx = 0 ∨ cx = lvl) ∧ (cz = 0 ∨ cz = lvl)) ∨
      ((cy = 0 ∨ cy = lvl) ∧ (cz = 0 ∨ cz = lvl)) then none
  else if cx = 0 ∨ cx = lvl ∨ cy = 0 ∨ cy = lvl ∨ cz = 0 ∨ cz = lvl then
    sideRoute lvl cx cy cz (cellCoord lvl co cx) (cellCoord lvl co cy) (cellCoord lvl co cz)
  else none

/-- `newCells` for one lattice point (sg.go:190-201): 1 for a corner, 2 for
an edge, 0 otherwise. -/
def pointCells (lvl cx cy cz : Int) : Int :=
  if (cx = 0 ∨ cx = lvl) ∧ (cy = 0 ∨ cy = lvl) ∧ (cz = 0 ∨ cz = lvl) then 1
  else if ((cx = 0 ∨ cx = lvl) ∧ (cy = 0 ∨ cy = lvl)) ∨
      ((cx = 0 ∨ cx = lvl) ∧ (cz = 0 ∨ cz = lvl)) ∨
      ((cy = 0 ∨ cy = lvl) ∧ (cz = 0 ∨ cz = lvl)) then 2
  else 0

/-- Body of the `newTrooper` triple loop (sg.go:183-230) for the lattice
point `(cx, cy, cz)`; the running coordinates satisfy `mx = -lvl + 2·cx`
(each is initialised to `-lvl` and stepped by 2).  A routed boundary point
feeds `addCube` to its panel; a corner/edge point appends a cube seeded by
`edgeSort(newCells)`. -/
def latticePanels (lvl : Int) (co cubeSize : ℚ) (st : TrState) (p : Int × Int × Int) : TrState :=
  match pointRoute lvl co p.1 p.2.1 p.2.2 with
  | some i =>
    updateBlock st i (fun b =>
      blockAddCube b (cellCoord lvl co p.1) (cellCoord lvl co p.2.1) (cellCoord lvl co p.2.2)
        cubeSize)
  | none => st

def latticeCubes (lvl : Int) (co cubeSize : ℚ) (st : TrState) (p : Int × Int × Int) : TrState :=
  if pointCells lvl p.1 p.2.1 p.2.2 > 0 then
    { st with
      cubes := st.cubes ++
        [cubeEdgeSort
          (newCube (cellCoord lvl co p.1) (cellCoord lvl co p.2.1) (cellCoord lvl co p.2.2)
            cubeSize)
          (pointCells lvl p.1 p.2.1 p.2.2)] }
  else st

def latticeBody (lvl : Int) (co cubeSize : ℚ) (st : TrState) (p : Int × Int × Int) : TrState :=
  latticeCubes lvl co cubeSize (latticePanels lvl co cubeSize st p) p

/-- The loop coordinates `0, 1, ..., lvl` of the `(lvl+1)³` scan. -/
def coords (lvl : Int) : List Int :=
  (List.range (lvl + 1).toNat).map (fun (i : Nat) => (i : Int))

/-- All lattice points in loop order (`cx` outermost, `cz` innermost). -/
def lattice (lvl : Int) : List (Int × Int × Int) :=
  (coords lvl).flatMap fun cx =>
    (coords lvl).flatMap fun cy =>
      (coords lvl).map fun cz => (cx, cy, cz)

/-- `cubeSize := 1.0 / float64(tr.lvl+1)` (sg.go:171). -/
def trooperCubeSize (lvl : Int) : ℚ := 1 / ((lvl : ℚ) + 1)

/-- `centerOffset := cubeSize * 0.5` (sg.go:172). -/
def trooperCo (lvl : Int) : ℚ := trooperCubeSize lvl * (1/2)

/-- `panelCenter := float64(tr.lvl) * centerOffset` (sg.go:173). -/
def trooperPanelCenter (lvl : Int) : ℚ := (lvl : ℚ) * trooperCo lvl

/-- The six empty panels created before the scan (sg.go:174-179), in source
order `+x, -x, +y, -y, +z, -z`. -/
def trooperStart (lvl : Int) : TrState :=
  { b0 := newBlock (trooperPanelCenter lvl) 0 0 lvl
    b1 := newBlock (-(trooperPanelCenter lvl)) 0 0 lvl
    b2 := newBlock 0 (trooperPanelCenter lvl) 0 lvl
    b3 := newBlock 0 (-(trooperPanelCenter lvl)) 0 lvl
    b4 := newBlock 0 0 (trooperPanelCenter lvl) lvl
    b5 := newBlock 0 0 (-(trooperPanelCenter lvl)) lvl
    cubes := [] }

/-- The full `(lvl+1)³` construction scan (sg.go:182-230). -/
def trooperFold (lvl : Int) : TrState :=
  (lattice lvl).foldl (latticeBody lvl (trooperCo lvl) (trooperCubeSize lvl))
    (trooperStart lvl)

/-- `newTrooper` (sg.go:154-233).  Level 0 is the single pre-seeded cube;
otherwise six empty panels at `±panelCenter` are built, the lattice scan
fills them and appends the corner/edge cubes, and `addCenter` (sg.go:237-244)
materialises the interior centre for positive levels. -/
def newTrooper (lvl : Int) : Trooper :=
  if lvl = 0 then
    { lvl := 0, mid := lvl * lvl * lvl * 8 - (lvl - 1) * (lvl - 1) * (lvl - 1) * 8,
      neo := false, center := false,
      bits := [TBit.cube (cubeEdgeSort (newCube 0 0 0 1) 1)] }
  else
    { lvl := lvl, mid := lvl * lvl * lvl * 8 - (lvl - 1) * (lvl - 1) * (lvl - 1) * 8,
      neo := false, center := 0 < lvl,
      bits :=
        [TBit.block (trooperFold lvl).b0, TBit.block (trooperFold lvl).b1,
         TBit.block (trooperFold lvl).b2, TBit.block (trooperFold lvl).b3,
         TBit.block (trooperFold lvl).b4, TBit.block (trooperFold lvl).b5] ++
          (trooperFold lvl).cubes.map TBit.cube }

/-- `trooper.health` (sg.go:247-253): the sum of all bits' counts. -/
def health (t : Trooper) : Int :=
  (t.bits.map tbitCcnt).sum

/-- The scan inside `trooper.attach` (sg.go:257-261): attach to the first
bit that accepts; `none` when every bit is full. -/
def bitsAttachFirst : List TBit → Option (List TBit)
  | [] => none
  | b :: bs =>
    if (tbitAttach b).2 then some ((tbitAttach b).1 :: bs)
    else (bitsAttachFirst bs).map (fun bs2 => b :: bs2)

/-- The scan inside `trooper.detach` (sg.go:271-275). -/
def bitsDetachFirst : List TBit → Option (List TBit)
  | [] => none
  | b :: bs =>
    if (tbitDetach b).2 then some ((tbitDetach b).1 :: bs)
    else (bitsDetachFirst bs).map (fun bs2 => b :: bs2)

/-- `trooper.trash` (sg.go:295-305): trash every bit, drop the centre and
`neo`. -/
def trooperTrash (t : Trooper) : Trooper :=
  { t with bits := t.bits.map tbitTrash, center := false, neo := false }

/-- `trooper.addCenter` (sg.go:237-244): the interior centre exists only for
positive levels. -/
def trooperAddCenter (t : Trooper) : Trooper :=
  if t.lvl > 0 then { t with center := true } else t

/-- `trooper.merge` (sg.go:279-284): trash everything, materialise `neo`,
re-add the centre. -/
def trooperMerge (t : Trooper) : Trooper :=
  trooperAddCenter { trooperTrash t with neo := true }

/-- `trooper.evolve` (sg.go:307-312): merge only when not already merged. -/
def trooperEvolve (t : Trooper) : Trooper :=
  if t.neo then t else trooperMerge t

/-- `trooper.attach` (sg.go:256-263).  The boolean records whether the
`tr.evolve()` call was reached (every bit refused the unit). -/
def trooperAttach (t : Trooper) : Trooper × Bool :=
  match bitsAttachFirst t.bits with
  | some bs => ({ t with bits := bs }, false)
  | none => (trooperEvolve t, true)

/-- `trooper.demerge` (sg.go:286-293): trash, rebuild the centre, reset every
bit to capacity, then detach one unit from the first bit. -/
def trooperDemerge (t : Trooper) : Trooper :=
  match (trooperAddCenter (trooperTrash t)).bits.map (fun b => tbitReset b (tbitCmax b)) with
  | [] => { trooperAddCenter (trooperTrash t) with bits := [] }
  | b :: bs => { trooperAddCenter (trooperTrash t) with bits := (tbitDetach b).1 :: bs }

/-- `trooper.detach` (sg.go:266-277); `devolve` (sg.go:314-316) is an empty
placeholder, so the all-bits-empty case returns the state unchanged. -/
def trooperDetach (t : Trooper) : Trooper :=
  if t.neo then trooperDemerge t
  else
    match bitsDetachFirst t.bits with
    | some bs => { t with bits := bs }
    | none => t

/-- `grow()` (the `KP+` reaction, sg.go:125) iterated `n` times; the second
component counts how many of the calls reached `evolve()`. -/
def trooperGrowN : Trooper → Nat → Trooper × Nat
  | t, 0 => (t, 0)
  | t, n + 1 =>
    ((trooperGrowN (trooperAttach t).1 n).1,
      (if (trooperAttach t).2 then 1 else 0) + (trooperGrowN (trooperAttach t).1 n).2)

/-- Number of scene-host primitives a cube currently owns. -/
def cubePrimCount (c : Cube) : Nat := c.owner.length

/-- Number of scene-host primitives a panel currently owns (its slab plus
its children's cells). -/
def blockPrimCount (b : Block) : Nat :=
  (if b.owner.slab then 1 else 0) + (b.owner.cubes.map cubePrimCount).sum

def tbitPrimCount : TBit → Nat
  | TBit.cube c => cubePrimCount c
  | TBit.block b => blockPrimCount b

/-- Number of cell/slab/centre/neo primitives the whole trooper owns. -/
def trooperPrimCount (t : Trooper) : Nat :=
  (if t.neo then 1 else 0) + (if t.center then 1 else 0) +
    (t.bits.map tbitPrimCount).sum

/-- The geometry fields of a node, which no operation ever writes. -/
def geomOf {σ : Type} (c : CBox σ) : ℚ × ℚ × ℚ × ℚ :=
  (c.cx, c.cy, c.cz, c.csize)

/-- A partially filled cube (count 3) used as concrete input by witnesses. -/
def cubeW : Cube := cubeReset (newCube 0 0 0 1) 3

/-- A fully merged cube (count 8) used as concrete input by witnesses. -/
def cubeF : Cube := cubeReset (newCube 0 0 0 1) 8

/-- The `+x` panel of a freshly constructed level-3 trooper (four `addCube`
calls, children seeded to 4 each) after one `attach`: its children hold
`[5, 4, 4, 4]` cells.  The child-cube centre coordinates are abbreviated to
the origin — the state machine stores but never reads them. -/
def blockC6 : Block :=
  (blockAttach
    (blockAddCube
      (blockAddCube
        (blockAddCube
          (blockAddCube (newBlock (3/8) 0 0 3) 0 0 0 (1/4))
          0 0 0 (1/4))
        0 0 0 (1/4))
      0 0 0 (1/4))).1

theorem attach_cmax {σ : Type} (h : Hooks σ) (c : CBox σ) :
    (attach h c).1.cmax = c.cmax := by
  unfold attach
  split
  · split <;> rfl
  · rfl

theorem attach_ccnt {σ : Type} (h : Hooks σ) (c : CBox σ) :
    (attach h c).1.ccnt = if 0 ≤ c.ccnt ∧ c.ccnt < c.cmax then c.ccnt + 1 else c.ccnt := by
  unfold attach
  split
  · split <;> rfl
  · rfl

theorem attachN_cmax {σ : Type} (h : Hooks σ) (n : Nat) (c : CBox σ) :
    (attachN h c n).cmax = c.cmax := by
  induction n generalizing c with
  | zero => rfl
  | succ n ih => rw [attachN, ih, attach_cmax]

/-- Counting lemma for the rebuild loop: from a legal state, `n` attaches
raise the count to `min (ccnt + n) cmax`. -/
theorem attachN_ccnt {σ : Type} (h : Hooks σ) (n : Nat) (c : CBox σ)
    (h0 : 0 ≤ c.ccnt) (h1 : c.ccnt ≤ c.cmax) :
    (attachN h c n).ccnt = min (c.ccnt + n) c.cmax := by
  induction n generalizing c with
  | zero =>
    simp only [attachN, Nat.cast_zero, add_zero]
    omega
  | succ n ih =>
    rw [attachN]
    rcases lt_or_ge c.ccnt c.cmax with hlt | hge
    · rw [ih ((attach h c).1) (by rw [attach_ccnt]; split <;> omega)
        (by rw [attach_ccnt, attach_cmax]; split <;> omega)]
      rw [attach_ccnt, attach_cmax]
      split
      · push_cast; omega
      · omega
    · have heq : c.ccnt = c.cmax := le_antisymm h1 hge
      have hfail : (attach h c).1 = c := by
        unfold attach
        split
        · omega
        · rfl
      rw [hfail, ih c h0 h1]
      push_cast
      omega

theorem reset_cmax {σ : Type} (h : Hooks σ) (c : CBox σ) (k : Int) :
    (reset h c k).cmax = c.cmax := by
  unfold reset
  rw [attachN_cmax]

/-- The count after `reset k` is `k` clamped to `[0, cmax]`. -/
theorem reset_ccnt {σ : Type} (h : Hooks σ) (c : CBox σ) (k : Int) :
    (reset h c k).ccnt = max 0 (min k c.cmax) := by
  rcases le_or_lt 0 c.cmax with hm | hm
  · unfold reset
    rw [attachN_ccnt h _ _ (le_refl 0) hm]
    show min ((0 : Int) + (((if k > c.cmax then c.cmax else k).toNat : Nat) : Int)) c.cmax =
      max 0 (min k c.cmax)
    split <;> omega
  · have hz : (if k > c.cmax then c.cmax else k).toNat = 0 := by split <;> omega
    unfold reset
    rw [hz]
    show (0 : Int) = max 0 (min k c.cmax)
    omega

theorem detach_cmax {σ : Type} (h : Hooks σ) (c : CBox σ) :
    (detach h c).1.cmax = c.cmax := by
  unfold detach
  split <;> [skip; rfl]
  split
  · rw [reset_cmax]
  · rfl

theorem detach_ccnt {σ : Type} (h : Hooks σ) (c : CBox σ) :
    (detach h c).1.ccnt =
      if 0 < c.ccnt ∧ c.ccnt ≤ c.cmax then
        if c.ccnt = c.cmax then max 0 (min (c.cmax - 1) c.cmax) else c.ccnt - 1
      else c.ccnt := by
  unfold detach
  split
  · split
    · rw [reset_ccnt]
    · rfl
  · rfl

theorem applyOp_cmax {σ : Type} (h : Hooks σ) (c : CBox σ) (o : Op) :
    (applyOp h c o).cmax = c.cmax := by
  cases o with
  | attach => exact attach_cmax h c
  | detach => exact detach_cmax h c
  | reset k => exact reset_cmax h c k

theorem applyOp_inv {σ : Type} (h : Hooks σ) (c : CBox σ) (o : Op)
    (h0 : 0 ≤ c.ccnt) (h1 : c.ccnt ≤ c.cmax) :
    0 ≤ (applyOp h c o).ccnt ∧ (applyOp h c o).ccnt ≤ c.cmax := by
  cases o with
  | attach => rw [applyOp, attach_ccnt]; split <;> omega
  | detach => rw [applyOp, detach_ccnt]; split <;> [split <;> omega; omega]
  | reset k => rw [applyOp, reset_ccnt]; omega

theorem applyOps_cmax {σ : Type} (h : Hooks σ) (ops : List Op) :
    ∀ c : CBox σ, (applyOps h c ops).cmax = c.cmax := by
  induction ops with
  | nil => intro c; rfl
  | cons o os ih => intro c; rw [applyOps, ih, applyOp_cmax]

theorem applyOps_inv {σ : Type} (h : Hooks σ) (ops : List Op) :
    ∀ c : CBox σ, 0 ≤ c.ccnt → c.ccnt ≤ c.cmax →
      0 ≤ (applyOps h c ops).ccnt ∧ (applyOps h c ops).ccnt ≤ (applyOps h c ops).cmax := by
  induction ops with
  | nil => intro c h0 h1; exact ⟨h0, h1⟩
  | cons o os ih =>
    intro c h0 h1
    have h2 := applyOp_inv h c o h0 h1
    have h3 := applyOp_cmax h c o
    rw [applyOps]
    exact ih (applyOp h c o) h2.1 (by omega)

/-- C1: on any aggregation node whose count satisfies `0 ≤ count ≤ capacity`,
`attach` returns `false` iff `count = capacity`; on success it increments the
count by exactly one, and the new owner data is produced by the merge hook
precisely when the new count equals the capacity, and by the add-one-unit
hook otherwise. -/
theorem attach_spec {σ : Type} (h : Hooks σ) (c : CBox σ)
    (h0 : 0 ≤ c.ccnt) (h1 : c.ccnt ≤ c.cmax) :
    ((attach h c).2 = false ↔ c.ccnt = c.cmax) ∧
      ((attach h c).2 = true →
        (attach h c).1.ccnt = c.ccnt + 1 ∧
          (attach h c).1.owner =
            (if c.ccnt + 1 = c.cmax then h.mergec else h.addc) { c with ccnt := c.ccnt + 1 }) := by
  unfold attach
  by_cases hc : c.ccnt = c.cmax
  · rw [if_neg (by omega)]
    exact ⟨⟨fun _ => hc, fun _ => rfl⟩, fun hT => absurd hT (by simp)⟩
  · rw [if_pos ⟨h0, by omega⟩]
    by_cases hm : c.ccnt + 1 = c.cmax
    · rw [if_pos hm]
      exact ⟨⟨fun hf => absurd hf (by simp), fun hcc => absurd hcc hc⟩,
        fun _ => ⟨rfl, by rw [if_pos hm]⟩⟩
    · rw [if_neg hm]
      exact ⟨⟨fun hf => absurd hf (by simp), fun hcc => absurd hcc hc⟩,
        fun _ => ⟨rfl, by rw [if_neg hm]⟩⟩

theorem attach_spec_witness :
    (0 ≤ cubeW.ccnt ∧ cubeW.ccnt ≤ cubeW.cmax) ∧
      (((attach cubeHooks cubeW).2 = false ↔ cubeW.ccnt = cubeW.cmax) ∧
        ((attach cubeHooks cubeW).2 = true →
          (attach cubeHooks cubeW).1.ccnt = cubeW.ccnt + 1 ∧
            (attach cubeHooks cubeW).1.owner =
              (if cubeW.ccnt + 1 = cubeW.cmax then cubeHooks.mergec else cubeHooks.addc)
                { cubeW with ccnt := cubeW.ccnt + 1 })) :=
  ⟨by decide, attach_spec cubeHooks cubeW (by decide) (by decide)⟩

/-- C3: a node created with `count = 0` and any positive capacity satisfies
`0 ≤ count ≤ capacity` after every sequence of `attach`/`detach`/`reset`
operations (hence before and after every single operation). -/
theorem count_invariant {σ : Type} (h : Hooks σ) (cmax : Int) (x y z s : ℚ) (o : σ)
    (hpos : 0 < cmax) (ops : List Op) :
    0 ≤ (applyOps h { ccnt := 0, cmax := cmax, cx := x, cy := y, cz := z, csize := s, owner := o } ops).ccnt ∧
      (applyOps h { ccnt := 0, cmax := cmax, cx := x, cy := y, cz := z, csize := s, owner := o } ops).ccnt ≤ cmax := by
  have h2 := applyOps_inv h ops
    { ccnt := 0, cmax := cmax, cx := x, cy := y, cz := z, csize := s, owner := o }
    (le_refl 0) (le_of_lt hpos)
  have h3 := applyOps_cmax h ops
    (σ := σ) { ccnt := 0, cmax := cmax, cx := x, cy := y, cz := z, csize := s, owner := o }
  have h4 : ({ ccnt := 0, cmax := cmax, cx := x, cy := y, cz := z, csize := s, owner := o } :
      CBox σ).cmax = cmax := rfl
  rw [h4] at h3
  exact ⟨h2.1, by omega⟩

theorem count_invariant_witness :
    (0 : Int) < 8 ∧
      (0 ≤ (applyOps cubeHooks { ccnt := 0, cmax := 8, cx := 0, cy := 0, cz := 0, csize := 1, owner := [] }
            [Op.attach, Op.attach, Op.detach, Op.reset 12, Op.reset (-3), Op.attach]).ccnt ∧
        (applyOps cubeHooks { ccnt := 0, cmax := 8, cx := 0, cy := 0, cz := 0, csize := 1, owner := [] }
            [Op.attach, Op.attach, Op.detach, Op.reset 12, Op.reset (-3), Op.attach]).ccnt ≤ 8) :=
  ⟨by decide,
    count_invariant cubeHooks 8 0 0 0 1 [] (by decide)
      [Op.attach, Op.attach, Op.detach, Op.reset 12, Op.reset (-3), Op.attach]⟩

/-- C4 counterexample: `reset(-1)` on a fresh cube (capacity 8) leaves the
count at 0, not `min (-1) 8 = -1`, so `reset(k)` does not leave the count at
`min k capacity` for every integer `k`. -/
theorem reset_min_counterexample :
    ¬ ((cubeReset (newCube 0 0 0 1) (-1)).ccnt
        = min (-1 : Int) (newCube 0 0 0 1).cmax) := by
  decide

/-- C4 amended: `reset(k)` leaves the count at `k` clamped to
`[0, capacity]`, i.e. `max 0 (min k capacity)` — which equals
`min k capacity` whenever `k ≥ 0` (the code clamps only from above; a
negative target simply runs the rebuild loop zero times). -/
theorem reset_clamps {σ : Type} (h : Hooks σ) (c : CBox σ) (k : Int) :
    (reset h c k).ccnt = max 0 (min k c.cmax) :=
  reset_ccnt h c k

/-- C5 counterexample: a trooper constructed at level 0 reports health 1,
not 8. -/
theorem health_level0_ne : ¬ (health (newTrooper 0) = 8) := by
  decide

/-- C5 amended: a level-0 trooper is a single capacity-8 cube pre-seeded
with one cell, so its constructed health is 1; the value 8 is the level's
`mid` entry cell total `L³·8 - (L-1)³·8`, not the constructed health. -/
theorem health_level0 : health (newTrooper 0) = 1 ∧ (newTrooper 0).mid = 8 := by
  decide


theorem attach_geom {σ : Type} (h : Hooks σ) (c : CBox σ) :
    geomOf (attach h c).1 = geomOf c := by
  unfold attach
  split
  · split <;> rfl
  · rfl

theorem attachN_geom {σ : Type} (h : Hooks σ) (n : Nat) :
    ∀ c : CBox σ, geomOf (attachN h c n) = geomOf c := by
  induction n with
  | zero => intro c; rfl
  | succ n ih => intro c; rw [attachN, ih, attach_geom]

theorem reset_geom {σ : Type} (h : Hooks σ) (c : CBox σ) (k : Int) :
    geomOf (reset h c k) = geomOf c := by
  unfold reset
  rw [attachN_geom]
  rfl

theorem detach_geom {σ : Type} (h : Hooks σ) (c : CBox σ) :
    geomOf (detach h c).1 = geomOf c := by
  unfold detach
  split
  · split
    · rw [reset_geom]
    · rfl
  · rfl

theorem cubeGood_attach {c : Cube} (hg : cubeGood c) : cubeGood (cubeAttach c).1 := by
  obtain ⟨hm, h0, h8, hw⟩ := hg
  unfold cubeAttach attach
  by_cases hlt : c.ccnt < c.cmax
  · rw [if_pos ⟨h0, hlt⟩]
    by_cases hfull : c.ccnt + 1 = c.cmax
    · rw [if_pos hfull]
      refine ⟨hm, (show (0 : Int) ≤ c.ccnt + 1 by omega),
        (show c.ccnt + 1 ≤ 8 by omega), ?_⟩
      show cubeHooks.mergec { c with ccnt := c.ccnt + 1 } =
        if c.ccnt + 1 = 8 then [Prim.merged]
        else (List.range (c.ccnt + 1).toNat).map (fun (i : Nat) => Prim.cell (i : Int))
      rw [if_pos (show c.ccnt + 1 = 8 by omega)]
      rfl
    · rw [if_neg hfull]
      refine ⟨hm, (show (0 : Int) ≤ c.ccnt + 1 by omega),
        (show c.ccnt + 1 ≤ 8 by omega), ?_⟩
      show c.owner ++ [Prim.cell (c.ccnt + 1 - 1)] =
        if c.ccnt + 1 = 8 then [Prim.merged]
        else (List.range (c.ccnt + 1).toNat).map (fun (i : Nat) => Prim.cell (i : Int))
      rw [if_neg (show ¬ (c.ccnt + 1 = 8) by omega),
        hw, if_neg (show ¬ (c.ccnt = 8) by omega)]
      rw [show (c.ccnt + 1).toNat = c.ccnt.toNat + 1 by omega, List.range_succ,
        List.map_append]
      rw [show Prim.cell (c.ccnt + 1 - 1) = Prim.cell ((c.ccnt.toNat : Nat) : Int) by
        congr 1
        omega]
      rfl
  · rw [if_neg (show ¬ (0 ≤ c.ccnt ∧ c.ccnt < c.cmax) by omega)]
    exact ⟨hm, h0, h8, hw⟩

theorem cubeGood_attachN (n : Nat) :
    ∀ {c : Cube}, cubeGood c → cubeGood (attachN cubeHooks c n) := by
  induction n with
  | zero => intro c hg; exact hg
  | succ n ih =>
    intro c hg
    show cubeGood (attachN cubeHooks (attach cubeHooks c).1 n)
    exact ih (cubeGood_attach hg)

theorem cubeGood_reset {c : Cube} (hm : c.cmax = 8) (k : Int) :
    cubeGood (cubeReset c k) := by
  unfold cubeReset reset
  have base : cubeGood { c with owner := cubeHooks.trashc c, ccnt := 0 } := by
    refine ⟨hm, le_refl 0, (show (0 : Int) ≤ 8 by omega), ?_⟩
    show ([] : List Prim) =
      if (0 : Int) = 8 then [Prim.merged]
      else (List.range (0 : Int).toNat).map (fun (i : Nat) => Prim.cell (i : Int))
    rw [if_neg (show ¬ ((0 : Int) = 8) by omega)]
    rfl
  exact cubeGood_attachN _ base

theorem cubeGood_detach {c : Cube} (hg : cubeGood c) : cubeGood (cubeDetach c).1 := by
  obtain ⟨hm, h0, h8, hw⟩ := hg
  unfold cubeDetach detach
  by_cases hz : c.ccnt = 0
  · rw [if_neg (show ¬ (0 < c.ccnt ∧ c.ccnt ≤ c.cmax) by omega)]
    exact ⟨hm, h0, h8, hw⟩
  · by_cases hfull : c.ccnt = c.cmax
    · rw [if_pos ⟨by omega, by omega⟩, if_pos hfull]
      exact cubeGood_reset hm _
    · rw [if_pos ⟨by omega, by omega⟩, if_neg hfull]
      refine ⟨hm, (show (0 : Int) ≤ c.ccnt - 1 by omega),
        (show c.ccnt - 1 ≤ 8 by omega), ?_⟩
      show c.owner.dropLast =
        if c.ccnt - 1 = 8 then [Prim.merged]
        else (List.range (c.ccnt - 1).toNat).map (fun (i : Nat) => Prim.cell (i : Int))
      rw [hw, if_neg (show ¬ (c.ccnt = 8) by omega),
        if_neg (show ¬ (c.ccnt - 1 = 8) by omega)]
      obtain ⟨m, hmn⟩ : ∃ m, c.ccnt.toNat = m + 1 := ⟨c.ccnt.toNat - 1, by omega⟩
      rw [hmn, List.range_succ, List.map_append]
      simp only [List.map_cons, List.map_nil]
      rw [List.dropLast_concat, show (c.ccnt - 1).toNat = m by omega]

theorem cubeGood_applyOp {c : Cube} (hg : cubeGood c) (o : Op) :
    cubeGood (applyOp cubeHooks c o) := by
  cases o with
  | attach => exact cubeGood_attach hg
  | detach => exact cubeGood_detach hg
  | reset k => exact cubeGood_reset hg.1 k

theorem cubeGood_applyOps (ops : List Op) :
    ∀ {c : Cube}, cubeGood c → cubeGood (applyOps cubeHooks c ops) := by
  induction ops with
  | nil => intro c hg; exact hg
  | cons o os ih => intro c hg; exact ih (cubeGood_applyOp hg o)

theorem cubeGood_newCube (x y z s : ℚ) : cubeGood (newCube x y z s) := by
  refine ⟨rfl, le_refl 0, (show (0 : Int) ≤ 8 by omega), ?_⟩
  show ([] : List Prim) =
    if (0 : Int) = 8 then [Prim.merged]
    else (List.range (0 : Int).toNat).map (fun (i : Nat) => Prim.cell (i : Int))
  rw [if_neg (show ¬ ((0 : Int) = 8) by omega)]
  rfl

theorem cubeGood_excl {c : Cube} (hg : cubeGood c) : cubeExcl c := by
  obtain ⟨hm, h0, h8, hw⟩ := hg
  by_cases hfull : c.ccnt = 8
  · exact Or.inr ⟨hfull, by rw [hw, if_pos hfull]⟩
  · refine Or.inl ⟨by omega, ?_, ?_⟩
    · rw [hw, if_neg hfull, List.length_map, List.length_range]
    · rw [hw, if_neg hfull]
      intro hmem
      obtain ⟨i, _, hcell⟩ := List.mem_map.mp hmem
      exact Prim.noConfusion hcell

/-- Two well-formed cubes with the same count and geometry are equal: the
representation invariant determines the owned cells from the count. -/
theorem cubeGood_unique {a b : Cube} (ha : cubeGood a) (hb : cubeGood b)
    (hcc : a.ccnt = b.ccnt) (hgeom : geomOf a = geomOf b) : a = b := by
  obtain ⟨ham, _, _, haw⟩ := ha
  obtain ⟨hbm, _, _, hbw⟩ := hb
  have hx : a.cx = b.cx := congrArg (fun p => p.1) hgeom
  have hy : a.cy = b.cy := congrArg (fun p => p.2.1) hgeom
  have hz : a.cz = b.cz := congrArg (fun p => p.2.2.1) hgeom
  have hs : a.csize = b.csize := congrArg (fun p => p.2.2.2) hgeom
  ext
  · exact hcc
  · rw [ham, hbm]
  · exact hx
  · exact hy
  · exact hz
  · exact hs
  · rw [haw, hbw, hcc]

/-- The `+x` panel of a level-1 trooper as constructed by `newTrooper 1`
(sg.go:174: `newBlock` at `panelCenter = 1/4` with `level = 1`): its capacity
`(1-1)²·8` is zero, so its count always equals its capacity. -/
def blockL1 : Block := newBlock (trooperPanelCenter 1) 0 0 1

/-- C2 amended: on any aggregation node with `0 ≤ count ≤ capacity` and
positive capacity (the spec's data-model invariant, violated only by the
capacity-0 level-1 panels), `detach` returns `false` iff `count = 0`;
detaching from a full node is performed by `reset(capacity - 1)` and leaves
`count = capacity - 1`; and detaching from a well-formed fully merged cube
leaves the exploded representation — exactly the seven discrete sub-cells at
sorted centre indices `0..6`, never the merged primitive. -/
theorem detach_spec {σ : Type} (h : Hooks σ) (c : CBox σ) (q : Cube)
    (h0 : 0 ≤ c.ccnt) (h1 : c.ccnt ≤ c.cmax) (hpos : 0 < c.cmax)
    (hq : cubeGood q) (hq8 : q.ccnt = 8) :
    ((detach h c).2 = false ↔ c.ccnt = 0) ∧
      (c.ccnt = c.cmax →
        (detach h c).1 = reset h c (c.cmax - 1) ∧ (detach h c).1.ccnt = c.cmax - 1) ∧
      ((cubeDetach q).1.ccnt = 7 ∧
        (cubeDetach q).1.owner = (List.range 7).map (fun (i : Nat) => Prim.cell (i : Int))) := by
  obtain ⟨hqm, hq0, hq8le, hqw⟩ := hq
  refine ⟨?_, ?_, ?_⟩
  · unfold detach
    by_cases hz : c.ccnt = 0
    · rw [if_neg (show ¬ (0 < c.ccnt ∧ c.ccnt ≤ c.cmax) by omega)]
      exact ⟨fun _ => hz, fun _ => rfl⟩
    · rw [if_pos ⟨by omega, h1⟩]
      split <;> exact ⟨fun hf => absurd hf (by simp), fun hcc => absurd hcc hz⟩
  · intro hfull
    have hd : detach h c = (reset h c (c.cmax - 1), true) := by
      unfold detach
      rw [if_pos ⟨by omega, h1⟩, if_pos hfull]
    rw [hd]
    refine ⟨rfl, ?_⟩
    show (reset h c (c.cmax - 1)).ccnt = c.cmax - 1
    rw [reset_ccnt]
    omega
  · have hcc : (cubeDetach q).1.ccnt = 7 := by
      unfold cubeDetach
      rw [detach_ccnt, if_pos ⟨by omega, by omega⟩, if_pos (show q.ccnt = q.cmax by omega)]
      omega
    refine ⟨hcc, ?_⟩
    obtain ⟨_, _, _, hw2⟩ := cubeGood_detach ⟨hqm, hq0, hq8le, hqw⟩
    rw [hw2, if_neg (show ¬ ((cubeDetach q).1.ccnt = 8) by rw [hcc]; omega), hcc]
    rfl

theorem detach_spec_witness :
    (0 ≤ cubeF.ccnt ∧ cubeF.ccnt ≤ cubeF.cmax ∧ 0 < cubeF.cmax ∧
        cubeGood cubeF ∧ cubeF.ccnt = 8) ∧
      (((detach cubeHooks cubeF).2 = false ↔ cubeF.ccnt = 0) ∧
        (cubeF.ccnt = cubeF.cmax →
          (detach cubeHooks cubeF).1 = reset cubeHooks cubeF (cubeF.cmax - 1) ∧
            (detach cubeHooks cubeF).1.ccnt = cubeF.cmax - 1) ∧
        ((cubeDetach cubeF).1.ccnt = 7 ∧
          (cubeDetach cubeF).1.owner = (List.range 7).map (fun (i : Nat) => Prim.cell (i : Int)))) :=
  ⟨⟨by decide, by decide, by decide, by decide, by decide⟩,
    detach_spec cubeHooks cubeF cubeF (by decide) (by decide) (by decide) (by decide) (by decide)⟩

/-- C8: starting from a freshly created cube, after every sequence of
attach/detach/reset operations (`edgeSort`/`panelSort` seeding included — it
is a reset) the cube is either exploded — count below 8, exactly `count`
discrete sub-cells, no merged primitive — or merged — count 8 and exactly
the single merged primitive — never both at once. -/
theorem cube_mutual_exclusion (x y z s : ℚ) (ops : List Op) :
    cubeExcl (applyOps cubeHooks (newCube x y z s) ops) :=
  cubeGood_excl (cubeGood_applyOps ops (cubeGood_newCube x y z s))

theorem roundtrip_ccnt {σ : Type} (h : Hooks σ) (d : CBox σ)
    (hd0 : 0 ≤ d.ccnt) (hd1 : d.ccnt < d.cmax) :
    (detach h (attach h d).1).1.ccnt = d.ccnt := by
  have ha : (attach h d).1.ccnt = d.ccnt + 1 := by
    rw [attach_ccnt, if_pos ⟨hd0, hd1⟩]
  have hm : (attach h d).1.cmax = d.cmax := attach_cmax h d
  rw [detach_ccnt, ha, hm, if_pos ⟨by omega, by omega⟩]
  split <;> omega

/-- C6 counterexample: `blockC6` is a reachable panel state (`0 ≤ count <
capacity`) on which `attach` immediately followed by `detach` does not
restore the node: the count returns to 17 but the materialised primitives
move — attach raises the first least-filled child (`[5,4,4,4] → [5,5,4,4]`)
while detach drains the first non-empty child (`→ [4,5,4,4]`). -/
theorem roundtrip_counterexample :
    (0 ≤ blockC6.ccnt ∧ blockC6.ccnt < blockC6.cmax) ∧
      (blockDetach (blockAttach blockC6).1).1 ≠ blockC6 ∧
      (blockDetach (blockAttach blockC6).1).1.ccnt = blockC6.ccnt ∧
      blockC6.owner.cubes.map (fun c => c.ccnt) = [5, 4, 4, 4] ∧
      (blockDetach (blockAttach blockC6).1).1.owner.cubes.map (fun c => c.ccnt)
        = [4, 5, 4, 4] := by
  with_unfolding_all decide

/-- C6 amended: on a CellCluster (cube) with `0 ≤ count < capacity`,
`attach` immediately followed by `detach` restores the entire node — count
and the exact owned primitives, including the `count = capacity - 1`
boundary where attach merges and detach re-explodes.  On an arbitrary
cluster/panel node the round trip restores the count, but a panel need not
get back its exact primitive set (attach feeds the first least-filled child,
detach drains the first non-empty child). -/
theorem attach_detach_roundtrip {σ : Type} (h : Hooks σ) (d : CBox σ) (c : Cube)
    (hd0 : 0 ≤ d.ccnt) (hd1 : d.ccnt < d.cmax) (hg : cubeGood c) (hc : c.ccnt < c.cmax) :
    (cubeDetach (cubeAttach c).1).1 = c ∧ (detach h (attach h d).1).1.ccnt = d.ccnt := by
  constructor
  · refine cubeGood_unique (cubeGood_detach (cubeGood_attach hg)) hg ?_ ?_
    · exact roundtrip_ccnt cubeHooks c hg.2.1 hc
    · exact (detach_geom cubeHooks _).trans (attach_geom cubeHooks c)
  · exact roundtrip_ccnt h d hd0 hd1

theorem attach_detach_roundtrip_witness :
    ((0 ≤ blockC6.ccnt ∧ blockC6.ccnt < blockC6.cmax) ∧
        cubeGood cubeW ∧ cubeW.ccnt < cubeW.cmax) ∧
      ((cubeDetach (cubeAttach cubeW).1).1 = cubeW ∧
        (detach blockHooks (attach blockHooks blockC6).1).1.ccnt = blockC6.ccnt) :=
  ⟨⟨⟨by with_unfolding_all decide, by with_unfolding_all decide⟩, by decide, by decide⟩,
    attach_detach_roundtrip blockHooks blockC6 cubeW (by with_unfolding_all decide)
      (by with_unfolding_all decide) (by decide) (by decide)⟩

/-- C9: on a freshly constructed level-0 trooper (one capacity-8 cube seeded
with one cell), eight consecutive `grow` calls reach `evolve()` exactly once
— on the eighth call, when the cube is full and refuses the unit — and
afterwards the organism owns exactly one primitive: the fully merged `neo`
(the cube's own cells are all destroyed by the merge, and level 0 has no
centre). -/
theorem grow_eight_level0 :
    (trooperGrowN (newTrooper 0) 8).2 = 1 ∧
      (trooperGrowN (newTrooper 0) 8).1.neo = true ∧
      trooperPrimCount (trooperGrowN (newTrooper 0) 8).1 = 1 := by
  decide

theorem filter_orderedInsert_of_eq (key : V3 → ℚ) (k : ℚ) (a : V3) (ha : key a = k)
    (l : List V3) :
    (List.orderedInsert (fun u v => key u ≤ key v) a l).filter (fun v => decide (key v = k))
      = a :: l.filter (fun v => decide (key v = k)) := by
  induction l with
  | nil =>
    rw [List.orderedInsert, List.filter_cons_of_pos (by simp [ha])]
  | cons b t ih =>
    rw [List.orderedInsert]
    by_cases hr : key a ≤ key b
    · rw [if_pos hr, List.filter_cons_of_pos (by simp [ha])]
    · rw [if_neg hr]
      have hb : ¬ (key b = k) := fun he => hr (le_of_eq (ha.trans he.symm))
      rw [List.filter_cons_of_neg (by simp [hb]), ih,
        List.filter_cons_of_neg (by simp [hb])]

theorem filter_orderedInsert_of_ne (key : V3 → ℚ) (k : ℚ) (a : V3) (ha : ¬ (key a = k))
    (l : List V3) :
    (List.orderedInsert (fun u v => key u ≤ key v) a l).filter (fun v => decide (key v = k))
      = l.filter (fun v => decide (key v = k)) := by
  induction l with
  | nil =>
    rw [List.orderedInsert, List.filter_cons_of_neg (by simp [ha])]
  | cons b t ih =>
    rw [List.orderedInsert]
    by_cases hr : key a ≤ key b
    · rw [if_pos hr, List.filter_cons_of_neg (by simp [ha])]
    · rw [if_neg hr, List.filter_cons, List.filter_cons, ih]

/-- Stability of the modelled sort: filtering the output to the elements of
any one key value gives exactly the same list as filtering the input — ties
keep their original input order. -/
theorem sortSort_stable (key : V3 → ℚ) (k : ℚ) (l : List V3) :
    (sortSort key l).filter (fun v => decide (key v = k))
      = l.filter (fun v => decide (key v = k)) := by
  induction l with
  | nil => rfl
  | cons a t ih =>
    show (List.orderedInsert (fun u v => key u ≤ key v) a (sortSort key t)).filter
        (fun v => decide (key v = k))
      = List.filter (fun v => decide (key v = k)) (a :: t)
    by_cases ha : key a = k
    · rw [filter_orderedInsert_of_eq key k a ha, ih,
        List.filter_cons_of_pos (by simp [ha])]
    · rw [filter_orderedInsert_of_ne key k a ha, ih,
        List.filter_cons_of_neg (by simp [ha])]

theorem sortSort_perm (key : V3 → ℚ) (l : List V3) : (sortSort key l).Perm l :=
  List.perm_insertionSort (fun u v => key u ≤ key v) l

theorem sortSort_sorted (key : V3 → ℚ) (l : List V3) :
    (sortSort key l).Pairwise (fun u v => key u ≤ key v) := by
  haveI : IsTotal V3 (fun u v => key u ≤ key v) := ⟨fun u v => le_total (key u) (key v)⟩
  haveI : IsTrans V3 (fun u v => key u ≤ key v) := ⟨fun u v w h1 h2 => le_trans h1 h2⟩
  exact List.sorted_insertionSort (fun u v => key u ≤ key v) l

/-- C7: for every list of 8 candidate centres, the order produced by the
centre sort is a permutation of the input arranged in non-decreasing metric
value — under the radial metric (`csort.Dtoc`, used by `edgeSort`) as well
as under the planar-projection metric (`ssort.Dtoc` for any reference normal
`n`, used by `panelSort`) — and it is stable: the elements of any single
metric value `k` appear in their original input order.  (The sort is a pure
function of the input, hence deterministic.) -/
theorem orderedCellSet_spec (l : List V3) (n : V3) (k : ℚ) (hl : l.length = 8) :
    ((sortSort csortDtoc l).Perm l ∧
      (sortSort csortDtoc l).Pairwise (fun u v => csortDtoc u ≤ csortDtoc v) ∧
      (sortSort csortDtoc l).filter (fun v => decide (csortDtoc v = k))
        = l.filter (fun v => decide (csortDtoc v = k))) ∧
    ((sortSort (ssortDtoc n.x n.y n.z) l).Perm l ∧
      (sortSort (ssortDtoc n.x n.y n.z) l).Pairwise
        (fun u v => ssortDtoc n.x n.y n.z u ≤ ssortDtoc n.x n.y n.z v) ∧
      (sortSort (ssortDtoc n.x n.y n.z) l).filter
          (fun v => decide (ssortDtoc n.x n.y n.z v = k))
        = l.filter (fun v => decide (ssortDtoc n.x n.y n.z v = k))) :=
  ⟨⟨sortSort_perm csortDtoc l, sortSort_sorted csortDtoc l, sortSort_stable csortDtoc k l⟩,
    ⟨sortSort_perm _ l, sortSort_sorted _ l, sortSort_stable _ k l⟩⟩

/-- The eight candidate centres of the unit cube at the origin, in source
order (`newCube(0,0,0,1)`), used as the witness input. -/
def centersW : List V3 := cubeCenters 0 0 0 1

theorem orderedCellSet_spec_witness :
    centersW.length = 8 ∧
      (((sortSort csortDtoc centersW).Perm centersW ∧
        (sortSort csortDtoc centersW).Pairwise (fun u v => csortDtoc u ≤ csortDtoc v) ∧
        (sortSort csortDtoc centersW).filter (fun v => decide (csortDtoc v = 0))
          = centersW.filter (fun v => decide (csortDtoc v = 0))) ∧
      ((sortSort (ssortDtoc (V3.mk 1 0 0).x (V3.mk 1 0 0).y (V3.mk 1 0 0).z) centersW).Perm centersW ∧
        (sortSort (ssortDtoc (V3.mk 1 0 0).x (V3.mk 1 0 0).y (V3.mk 1 0 0).z) centersW).Pairwise
          (fun u v => ssortDtoc (V3.mk 1 0 0).x (V3.mk 1 0 0).y (V3.mk 1 0 0).z u
            ≤ ssortDtoc (V3.mk 1 0 0).x (V3.mk 1 0 0).y (V3.mk 1 0 0).z v) ∧
        (sortSort (ssortDtoc (V3.mk 1 0 0).x (V3.mk 1 0 0).y (V3.mk 1 0 0).z) centersW).filter
            (fun v => decide (ssortDtoc (V3.mk 1 0 0).x (V3.mk 1 0 0).y (V3.mk 1 0 0).z v = 0))
          = centersW.filter
              (fun v => decide (ssortDtoc (V3.mk 1 0 0).x (V3.mk 1 0 0).y (V3.mk 1 0 0).z v = 0)))) :=
  ⟨rfl, orderedCellSet_spec centersW (V3.mk 1 0 0) 0 rfl⟩

theorem blockAt_cubesUpdate (st : TrState) (cs : List Cube) (i : Nat) :
    blockAt { st with cubes := cs } i = blockAt st i := by
  match i with
  | 0 => rfl
  | 1 => rfl
  | 2 => rfl
  | 3 => rfl
  | 4 => rfl
  | n + 5 => rfl

theorem blockAt_latticeCubes (lvl : Int) (co s : ℚ) (st : TrState) (p : Int × Int × Int)
    (i : Nat) : blockAt (latticeCubes lvl co s st p) i = blockAt st i := by
  unfold latticeCubes
  split
  · exact blockAt_cubesUpdate st _ i
  · rfl

theorem blockAt_updateBlock (st : TrState) (j i : Nat) (f : Block → Block)
    (hi : i < 6) (hj : j < 6) :
    blockAt (updateBlock st j f) i = if j = i then f (blockAt st i) else blockAt st i := by
  interval_cases i <;> interval_cases j <;> simp [blockAt, updateBlock]

theorem pointRoute_lt (lvl : Int) (co : ℚ) (cx cy cz : Int) (j : Nat)
    (h : pointRoute lvl co cx cy cz = some j) : j < 6 := by
  unfold pointRoute sideRoute at h
  repeat' split at h
  all_goals simp_all
  all_goals omega

theorem latticeBody_blockAt (lvl : Int) (co s : ℚ) (st : TrState) (p : Int × Int × Int)
    (i : Nat) (hi : i < 6) :
    blockAt (latticeBody lvl co s st p) i =
      if pointRoute lvl co p.1 p.2.1 p.2.2 = some i then
        blockAddCube (blockAt st i) (cellCoord lvl co p.1) (cellCoord lvl co p.2.1)
          (cellCoord lvl co p.2.2) s
      else blockAt st i := by
  unfold latticeBody
  rw [blockAt_latticeCubes]
  unfold latticePanels
  rcases hr : pointRoute lvl co p.1 p.2.1 p.2.2 with _ | j
  · simp only [hr]
    rw [if_neg (by simp)]
  · simp only [hr]
    rw [blockAt_updateBlock st j i _ hi (pointRoute_lt lvl co p.1 p.2.1 p.2.2 j hr)]
    by_cases hji : j = i
    · rw [if_pos hji, if_pos (by rw [hji])]
    · rw [if_neg hji, if_neg (by simp [hji])]

theorem foldl_blockAt_ccnt (lvl : Int) (co s : ℚ) (i : Nat) (hi : i < 6) :
    ∀ (pts : List (Int × Int × Int)) (st : TrState),
      (blockAt (pts.foldl (latticeBody lvl co s) st) i).ccnt
        = (blockAt st i).ccnt
          + 4 * ((pts.countP
              (fun p => decide (pointRoute lvl co p.1 p.2.1 p.2.2 = some i)) : Nat) : Int) := by
  intro pts
  induction pts with
  | nil => intro st; simp
  | cons p pts ih =>
    intro st
    rw [List.foldl_cons, ih, List.countP_cons, latticeBody_blockAt lvl co s st p i hi]
    by_cases hr : pointRoute lvl co p.1 p.2.1 p.2.2 = some i
    · rw [if_pos hr]
      have hadd : (blockAddCube (blockAt st i) (cellCoord lvl co p.1) (cellCoord lvl co p.2.1)
          (cellCoord lvl co p.2.2) s).ccnt = (blockAt st i).ccnt + 4 := rfl
      rw [hadd,
        if_pos (show decide (pointRoute lvl co p.1 p.2.1 p.2.2 = some i) = true by simp [hr])]
      push_cast
      ring
    · rw [if_neg hr,
        if_neg (show ¬ (decide (pointRoute lvl co p.1 p.2.1 p.2.2 = some i) = true) by
          simp [hr])]
      push_cast
      ring

theorem foldl_blockAt_cmax (lvl : Int) (co s : ℚ) (i : Nat) (hi : i < 6) :
    ∀ (pts : List (Int × Int × Int)) (st : TrState),
      (blockAt (pts.foldl (latticeBody lvl co s) st) i).cmax = (blockAt st i).cmax := by
  intro pts
  induction pts with
  | nil => intro st; rfl
  | cons p pts ih =>
    intro st
    rw [List.foldl_cons, ih, latticeBody_blockAt lvl co s st p i hi]
    by_cases hr : pointRoute lvl co p.1 p.2.1 p.2.2 = some i
    · rw [if_pos hr]
      rfl
    · rw [if_neg hr]

theorem pointRoute_face0 (lvl : Int) (co : ℚ) (hl : 2 ≤ lvl) (hco : 0 < co)
    (cx cy cz : Int) (hbx : 0 ≤ cx ∧ cx ≤ lvl) (hby : 0 ≤ cy ∧ cy ≤ lvl)
    (hbz : 0 ≤ cz ∧ cz ≤ lvl) :
    pointRoute lvl co cx cy cz = some 0 ↔
      cx = lvl ∧ (1 ≤ cy ∧ cy ≤ lvl - 1) ∧ (1 ≤ cz ∧ cz ≤ lvl - 1) := by
  have hlt : ∀ a b : Int, cellCoord lvl co a < cellCoord lvl co b ↔ a < b := by
    intro a b
    unfold cellCoord
    rw [mul_lt_mul_right hco, Int.cast_lt]
    omega
  constructor
  · intro h
    unfold pointRoute sideRoute at h
    simp only [gt_iff_lt, hlt] at h
    repeat' split at h
    all_goals simp_all
    all_goals omega
  · intro hc
    unfold pointRoute sideRoute
    simp only [gt_iff_lt, hlt]
    rw [if_neg (show ¬ ((cx = 0 ∨ cx = lvl) ∧ (cy = 0 ∨ cy = lvl) ∧ (cz = 0 ∨ cz = lvl)) by
        omega),
      if_neg (show ¬ (((cx = 0 ∨ cx = lvl) ∧ (cy = 0 ∨ cy = lvl)) ∨
        ((cx = 0 ∨ cx = lvl) ∧ (cz = 0 ∨ cz = lvl)) ∨
        ((cy = 0 ∨ cy = lvl) ∧ (cz = 0 ∨ cz = lvl))) by omega),
      if_pos (show cx = 0 ∨ cx = lvl ∨ cy = 0 ∨ cy = lvl ∨ cz = 0 ∨ cz = lvl by omega),
      if_pos (show cx = lvl ∧ cy < cx ∧ cz < cx by omega)]

theorem pointRoute_face1 (lvl : Int) (co : ℚ) (hl : 2 ≤ lvl) (hco : 0 < co)
    (cx cy cz : Int) (hbx : 0 ≤ cx ∧ cx ≤ lvl) (hby : 0 ≤ cy ∧ cy ≤ lvl)
    (hbz : 0 ≤ cz ∧ cz ≤ lvl) :
    pointRoute lvl co cx cy cz = some 1 ↔
      cx = 0 ∧ (1 ≤ cy ∧ cy ≤ lvl - 1) ∧ (1 ≤ cz ∧ cz ≤ lvl - 1) := by
  have hlt : ∀ a b : Int, cellCoord lvl co a < cellCoord lvl co b ↔ a < b := by
    intro a b
    unfold cellCoord
    rw [mul_lt_mul_right hco, Int.cast_lt]
    omega
  constructor
  · intro h
    unfold pointRoute sideRoute at h
    simp only [gt_iff_lt, hlt] at h
    repeat' split at h
    all_goals simp_all
    all_goals omega
  · intro hc
    unfold pointRoute sideRoute
    simp only [gt_iff_lt, hlt]
    rw [if_neg (show ¬ ((cx = 0 ∨ cx = lvl) ∧ (cy = 0 ∨ cy = lvl) ∧ (cz = 0 ∨ cz = lvl)) by
        omega),
      if_neg (show ¬ (((cx = 0 ∨ cx = lvl) ∧ (cy = 0 ∨ cy = lvl)) ∨
        ((cx = 0 ∨ cx = lvl) ∧ (cz = 0 ∨ cz = lvl)) ∨
        ((cy = 0 ∨ cy = lvl) ∧ (cz = 0 ∨ cz = lvl))) by omega),
      if_pos (show cx = 0 ∨ cx = lvl ∨ cy = 0 ∨ cy = lvl ∨ cz = 0 ∨ cz = lvl by omega),
      if_neg (show ¬ (cx = lvl ∧ cy < cx ∧ cz < cx) by omega),
      if_pos (show cx = 0 ∧ cx < cy ∧ cx < cz by omega)]

theorem pointRoute_face2 (lvl : Int) (co : ℚ) (hl : 2 ≤ lvl) (hco : 0 < co)
    (cx cy cz : Int) (hbx : 0 ≤ cx ∧ cx ≤ lvl) (hby : 0 ≤ cy ∧ cy ≤ lvl)
    (hbz : 0 ≤ cz ∧ cz ≤ lvl) :
    pointRoute lvl co cx cy cz = some 2 ↔
      (1 ≤ cx ∧ cx ≤ lvl - 1) ∧ cy = lvl ∧ (1 ≤ cz ∧ cz ≤ lvl - 1) := by
  have hlt : ∀ a b : Int, cellCoord lvl co a < cellCoord lvl co b ↔ a < b := by
    intro a b
    unfold cellCoord
    rw [mul_lt_mul_right hco, Int.cast_lt]
    omega
  constructor
  · intro h
    unfold pointRoute sideRoute at h
    simp only [gt_iff_lt, hlt] at h
    repeat' split at h
    all_goals simp_all
    all_goals omega
  · intro hc
    unfold pointRoute sideRoute
    simp only [gt_iff_lt, hlt]
    rw [if_neg (show ¬ ((cx = 0 ∨ cx = lvl) ∧ (cy = 0 ∨ cy = lvl) ∧ (cz = 0 ∨ cz = lvl)) by
        omega),
      if_neg (show ¬ (((cx = 0 ∨ cx = lvl) ∧ (cy = 0 ∨ cy = lvl)) ∨
        ((cx = 0 ∨ cx = lvl) ∧ (cz = 0 ∨ cz = lvl)) ∨
        ((cy = 0 ∨ cy = lvl) ∧ (cz = 0 ∨ cz = lvl))) by omega),
      if_pos (show cx = 0 ∨ cx = lvl ∨ cy = 0 ∨ cy = lvl ∨ cz = 0 ∨ cz = lvl by omega),
      if_neg (show ¬ (cx = lvl ∧ cy < cx ∧ cz < cx) by omega),
      if_neg (show ¬ (cx = 0 ∧ cx < cy ∧ cx < cz) by omega),
      if_pos (show cy = lvl ∧ cx < cy ∧ cz < cy by omega)]

theorem pointRoute_face3 (lvl : Int) (co : ℚ) (hl : 2 ≤ lvl) (hco : 0 < co)
    (cx cy cz : Int) (hbx : 0 ≤ cx ∧ cx ≤ lvl) (hby : 0 ≤ cy ∧ cy ≤ lvl)
    (hbz : 0 ≤ cz ∧ cz ≤ lvl) :
    pointRoute lvl co cx cy cz = some 3 ↔
      (1 ≤ cx ∧ cx ≤ lvl - 1) ∧ cy = 0 ∧ (1 ≤ cz ∧ cz ≤ lvl - 1) := by
  have hlt : ∀ a b : Int, cellCoord lvl co a < cellCoord lvl co b ↔ a < b := by
    intro a b
    unfold cellCoord
    rw [mul_lt_mul_right hco, Int.cast_lt]
    omega
  constructor
  · intro h
    unfold pointRoute sideRoute at h
    simp only [gt_iff_lt, hlt] at h
    repeat' split at h
    all_goals simp_all
    all_goals omega
  · intro hc
    unfold pointRoute sideRoute
    simp only [gt_iff_lt, hlt]
    rw [if_neg (show ¬ ((cx = 0 ∨ cx = lvl) ∧ (cy = 0 ∨ cy = lvl) ∧ (cz = 0 ∨ cz = lvl)) by
        omega),
      if_neg (show ¬ (((cx = 0 ∨ cx = lvl) ∧ (cy = 0 ∨ cy = lvl)) ∨
        ((cx = 0 ∨ cx = lvl) ∧ (cz = 0 ∨ cz = lvl)) ∨
        ((cy = 0 ∨ cy = lvl) ∧ (cz = 0 ∨ cz = lvl))) by omega),
      if_pos (show cx = 0 ∨ cx = lvl ∨ cy = 0 ∨ cy = lvl ∨ cz = 0 ∨ cz = lvl by omega),
      if_neg (show ¬ (cx = lvl ∧ cy < cx ∧ cz < cx) by omega),
      if_neg (show ¬ (cx = 0 ∧ cx < cy ∧ cx < cz) by omega),
      if_neg (show ¬ (cy = lvl ∧ cx < cy ∧ cz < cy) by omega),
      if_pos (show cy = 0 ∧ cy < cx ∧ cy < cz by omega)]

theorem pointRoute_face4 (lvl : Int) (co : ℚ) (hl : 2 ≤ lvl) (hco : 0 < co)
    (cx cy cz : Int) (hbx : 0 ≤ cx ∧ cx ≤ lvl) (hby : 0 ≤ cy ∧ cy ≤ lvl)
    (hbz : 0 ≤ cz ∧ cz ≤ lvl) :
    pointRoute lvl co cx cy cz = some 4 ↔
      (1 ≤ cx ∧ cx ≤ lvl - 1) ∧ (1 ≤ cy ∧ cy ≤ lvl - 1) ∧ cz = lvl := by
  have hlt : ∀ a b : Int, cellCoord lvl co a < cellCoord lvl co b ↔ a < b := by
    intro a b
    unfold cellCoord
    rw [mul_lt_mul_right hco, Int.cast_lt]
    omega
  constructor
  · intro h
    unfold pointRoute sideRoute at h
    simp only [gt_iff_lt, hlt] at h
    repeat' split at h
    all_goals simp_all
    all_goals omega
  · intro hc
    unfold pointRoute sideRoute
    simp only [gt_iff_lt, hlt]
    rw [if_neg (show ¬ ((cx = 0 ∨ cx = lvl) ∧ (cy = 0 ∨ cy = lvl) ∧ (cz = 0 ∨ cz = lvl)) by
        omega),
      if_neg (show ¬ (((cx = 0 ∨ cx = lvl) ∧ (cy = 0 ∨ cy = lvl)) ∨
        ((cx = 0 ∨ cx = lvl) ∧ (cz = 0 ∨ cz = lvl)) ∨
        ((cy = 0 ∨ cy = lvl) ∧ (cz = 0 ∨ cz = lvl))) by omega),
      if_pos (show cx = 0 ∨ cx = lvl ∨ cy = 0 ∨ cy = lvl ∨ cz = 0 ∨ cz = lvl by omega),
      if_neg (show ¬ (cx = lvl ∧ cy < cx ∧ cz < cx) by omega),
      if_neg (show ¬ (cx = 0 ∧ cx < cy ∧ cx < cz) by omega),
      if_neg (show ¬ (cy = lvl ∧ cx < cy ∧ cz < cy) by omega),
      if_neg (show ¬ (cy = 0 ∧ cy < cx ∧ cy < cz) by omega),
      if_pos (show cz = lvl ∧ cx < cz ∧ cy < cz by omega)]

theorem pointRoute_face5 (lvl : Int) (co : ℚ) (hl : 2 ≤ lvl) (hco : 0 < co)
    (cx cy cz : Int) (hbx : 0 ≤ cx ∧ cx ≤ lvl) (hby : 0 ≤ cy ∧ cy ≤ lvl)
    (hbz : 0 ≤ cz ∧ cz ≤ lvl) :
    pointRoute lvl co cx cy cz = some 5 ↔
      (1 ≤ cx ∧ cx ≤ lvl - 1) ∧ (1 ≤ cy ∧ cy ≤ lvl - 1) ∧ cz = 0 := by
  have hlt : ∀ a b : Int, cellCoord lvl co a < cellCoord lvl co b ↔ a < b := by
    intro a b
    unfold cellCoord
    rw [mul_lt_mul_right hco, Int.cast_lt]
    omega
  constructor
  · intro h
    unfold pointRoute sideRoute at h
    simp only [gt_iff_lt, hlt] at h
    repeat' split at h
    all_goals simp_all
    all_goals omega
  · intro hc
    unfold pointRoute sideRoute
    simp only [gt_iff_lt, hlt]
    rw [if_neg (show ¬ ((cx = 0 ∨ cx = lvl) ∧ (cy = 0 ∨ cy = lvl) ∧ (cz = 0 ∨ cz = lvl)) by
        omega),
      if_neg (show ¬ (((cx = 0 ∨ cx = lvl) ∧ (cy = 0 ∨ cy = lvl)) ∨
        ((cx = 0 ∨ cx = lvl) ∧ (cz = 0 ∨ cz = lvl)) ∨
        ((cy = 0 ∨ cy = lvl) ∧ (cz = 0 ∨ cz = lvl))) by omega),
      if_pos (show cx = 0 ∨ cx = lvl ∨ cy = 0 ∨ cy = lvl ∨ cz = 0 ∨ cz = lvl by omega),
      if_neg (show ¬ (cx = lvl ∧ cy < cx ∧ cz < cx) by omega),
      if_neg (show ¬ (cx = 0 ∧ cx < cy ∧ cx < cz) by omega),
      if_neg (show ¬ (cy = lvl ∧ cx < cy ∧ cz < cy) by omega),
      if_neg (show ¬ (cy = 0 ∧ cy < cx ∧ cy < cz) by omega),
      if_neg (show ¬ (cz = lvl ∧ cx < cz ∧ cy < cz) by omega),
      if_pos (show cz = 0 ∧ cz < cx ∧ cz < cy by omega)]

theorem sum_map_boolIte {α : Type} (p : α → Bool) (K : Nat) (l : List α) :
    (l.map (fun a => if p a = true then K else 0)).sum = K * l.countP p := by
  induction l with
  | nil => simp
  | cons a t ih =>
    rw [List.map_cons, List.sum_cons, ih, List.countP_cons]
    by_cases hp : p a = true
    · rw [if_pos hp, if_pos hp]
      ring
    · rw [if_neg hp, if_neg hp]
      ring

theorem countP_and_const {α : Type} (b : Bool) (h : α → Bool) (l : List α) :
    l.countP (fun a => b && h a) = if b = true then l.countP h else 0 := by
  cases b
  · simp
  · simp

/-- The `(lvl+1)³` scan count of a predicate that factors through the three
coordinates: the product of the per-axis counts. -/
theorem countP_lattice_prod (lvl : Int) (f g h : Int → Bool) :
    (lattice lvl).countP (fun p => f p.1 && (g p.2.1 && h p.2.2))
      = (coords lvl).countP f * ((coords lvl).countP g * (coords lvl).countP h) := by
  unfold lattice
  rw [List.countP_flatMap]
  have h1 : ∀ cx ∈ coords lvl,
      (List.countP (fun p : Int × Int × Int => f p.1 && (g p.2.1 && h p.2.2)) ∘
        fun cx => (coords lvl).flatMap fun cy => (coords lvl).map fun cz => (cx, cy, cz)) cx
      = if f cx = true then (coords lvl).countP g * (coords lvl).countP h else 0 := by
    intro cx _
    show List.countP _ ((coords lvl).flatMap fun cy => (coords lvl).map fun cz => (cx, cy, cz)) = _
    rw [List.countP_flatMap]
    have h2 : ∀ cy ∈ coords lvl,
        (List.countP (fun p : Int × Int × Int => f p.1 && (g p.2.1 && h p.2.2)) ∘
          fun cy => (coords lvl).map fun cz => (cx, cy, cz)) cy
        = if (f cx && g cy) = true then (coords lvl).countP h else 0 := by
      intro cy _
      show List.countP _ ((coords lvl).map fun cz => (cx, cy, cz)) = _
      rw [List.countP_map]
      have hc : ((fun p : Int × Int × Int => f p.1 && (g p.2.1 && h p.2.2)) ∘
          fun cz => (cx, cy, cz)) = fun cz => (f cx && g cy) && h cz := by
        funext cz
        show (f cx && (g cy && h cz)) = ((f cx && g cy) && h cz)
        rw [Bool.and_assoc]
      rw [hc, countP_and_const]
    cases hfx : f cx
    · rw [if_neg (by simp)]
      have hz : ∀ cy ∈ coords lvl,
          (List.countP (fun p : Int × Int × Int => f p.1 && (g p.2.1 && h p.2.2)) ∘
            fun cy => (coords lvl).map fun cz => (cx, cy, cz)) cy = 0 := by
        intro cy hcy
        rw [h2 cy hcy, hfx]
        simp
      rw [List.map_congr_left hz]
      simp
    · rw [if_pos rfl]
      have ht : ∀ cy ∈ coords lvl,
          (List.countP (fun p : Int × Int × Int => f p.1 && (g p.2.1 && h p.2.2)) ∘
            fun cy => (coords lvl).map fun cz => (cx, cy, cz)) cy
          = if g cy = true then (coords lvl).countP h else 0 := by
        intro cy hcy
        rw [h2 cy hcy, hfx, Bool.true_and]
      rw [List.map_congr_left ht, sum_map_boolIte]
      ring
  rw [List.map_congr_left h1, sum_map_boolIte]
  ring

theorem coords_countP_eq_lvl (lvl : Int) (h0 : 0 ≤ lvl) :
    (coords lvl).countP (fun m => decide (m = lvl)) = 1 := by
  unfold coords
  rw [List.countP_map]
  have hcomp : ((fun m : Int => decide (m = lvl)) ∘ fun i : Nat => (i : Int))
      = fun i : Nat => decide ((i : Int) = lvl) := rfl
  rw [hcomp, show (lvl + 1).toNat = lvl.toNat + 1 by omega, List.range_succ,
    List.countP_append]
  have hz : (List.range lvl.toNat).countP (fun i : Nat => decide ((i : Int) = lvl)) = 0 := by
    rw [List.countP_eq_zero]
    intro a ha
    rw [List.mem_range] at ha
    simp only [decide_eq_true_eq]
    omega
  have ho : ([lvl.toNat] : List Nat).countP (fun i : Nat => decide ((i : Int) = lvl)) = 1 := by
    rw [List.countP_cons, List.countP_nil,
      if_pos (show decide (((lvl.toNat : Nat) : Int) = lvl) = true by
        simp only [decide_eq_true_eq]
        omega)]
  rw [hz, ho]

theorem coords_countP_eq_zero (lvl : Int) (h0 : 0 ≤ lvl) :
    (coords lvl).countP (fun m => decide (m = 0)) = 1 := by
  unfold coords
  rw [List.countP_map]
  have hcomp : ((fun m : Int => decide (m = 0)) ∘ fun i : Nat => (i : Int))
      = fun i : Nat => decide ((i : Int) = 0) := rfl
  rw [hcomp, show (lvl + 1).toNat = lvl.toNat + 1 by omega, List.range_succ_eq_map,
    List.countP_cons, List.countP_map]
  have hz : (List.range lvl.toNat).countP
      ((fun i : Nat => decide ((i : Int) = 0)) ∘ Nat.succ) = 0 := by
    rw [List.countP_eq_zero]
    intro a ha
    show ¬ (decide (((Nat.succ a : Nat) : Int) = 0) = true)
    simp only [decide_eq_true_eq]
    omega
  rw [hz, if_pos (show decide (((0 : Nat) : Int) = 0) = true by decide)]

theorem coords_countP_interior (lvl : Int) (hl : 2 ≤ lvl) :
    (coords lvl).countP (fun m => decide (1 ≤ m ∧ m ≤ lvl - 1)) = (lvl - 1).toNat := by
  have main : ∀ n : Nat, (List.range n).countP
      (fun i : Nat => decide (1 ≤ (i : Int) ∧ (i : Int) ≤ lvl - 1))
      = min (n - 1) (lvl - 1).toNat := by
    intro n
    induction n with
    | zero => simp
    | succ n ih =>
      rw [List.range_succ, List.countP_append, ih, List.countP_cons, List.countP_nil]
      by_cases hn : 1 ≤ (n : Int) ∧ (n : Int) ≤ lvl - 1
      · rw [if_pos (by simp only [decide_eq_true_eq]; exact hn)]
        omega
      · rw [if_neg (by simp only [decide_eq_true_eq]; exact hn)]
        omega
  unfold coords
  rw [List.countP_map]
  have hcomp : ((fun m : Int => decide (1 ≤ m ∧ m ≤ lvl - 1)) ∘ fun i : Nat => (i : Int))
      = fun i : Nat => decide (1 ≤ (i : Int) ∧ (i : Int) ≤ lvl - 1) := rfl
  rw [hcomp, main]
  omega

theorem mem_lattice {lvl : Int} {p : Int × Int × Int} (hp : p ∈ lattice lvl) :
    (0 ≤ p.1 ∧ p.1 ≤ lvl) ∧ (0 ≤ p.2.1 ∧ p.2.1 ≤ lvl) ∧ (0 ≤ p.2.2 ∧ p.2.2 ≤ lvl) := by
  unfold lattice coords at hp
  simp only [List.mem_flatMap, List.mem_map, List.mem_range] at hp
  obtain ⟨cx, ⟨i, hi, rfl⟩, cy, ⟨j, hj, rfl⟩, ⟨k0, hk, hpk⟩⟩ := hp
  subst hpk
  refine ⟨⟨?_, ?_⟩, ⟨?_, ?_⟩, ?_, ?_⟩ <;> dsimp only <;> omega

theorem lattice_count_face0 (lvl : Int) (hl : 2 ≤ lvl) (co : ℚ) (hco : 0 < co) :
    (lattice lvl).countP (fun p => decide (pointRoute lvl co p.1 p.2.1 p.2.2 = some 0))
      = (lvl - 1).toNat * (lvl - 1).toNat := by
  have hcg : (lattice lvl).countP
        (fun p => decide (pointRoute lvl co p.1 p.2.1 p.2.2 = some 0))
      = (lattice lvl).countP (fun p =>
          (fun m => decide (m = lvl)) p.1 &&
            ((fun m => decide (1 ≤ m ∧ m ≤ lvl - 1)) p.2.1 && (fun m => decide (1 ≤ m ∧ m ≤ lvl - 1)) p.2.2)) := by
    apply List.countP_congr
    intro x hx
    obtain ⟨hbx, hby, hbz⟩ := mem_lattice hx
    simp only [decide_eq_true_eq, Bool.and_eq_true]
    exact pointRoute_face0 lvl co hl hco x.1 x.2.1 x.2.2 hbx hby hbz
  rw [hcg, countP_lattice_prod lvl (fun m => decide (m = lvl)) (fun m => decide (1 ≤ m ∧ m ≤ lvl - 1)) (fun m => decide (1 ≤ m ∧ m ≤ lvl - 1)),
    coords_countP_eq_lvl lvl (by omega), coords_countP_interior lvl hl]
  ring

theorem lattice_count_face1 (lvl : Int) (hl : 2 ≤ lvl) (co : ℚ) (hco : 0 < co) :
    (lattice lvl).countP (fun p => decide (pointRoute lvl co p.1 p.2.1 p.2.2 = some 1))
      = (lvl - 1).toNat * (lvl - 1).toNat := by
  have hcg : (lattice lvl).countP
        (fun p => decide (pointRoute lvl co p.1 p.2.1 p.2.2 = some 1))
      = (lattice lvl).countP (fun p =>
          (fun m => decide (m = 0)) p.1 &&
            ((fun m => decide (1 ≤ m ∧ m ≤ lvl - 1)) p.2.1 && (fun m => decide (1 ≤ m ∧ m ≤ lvl - 1)) p.2.2)) := by
    apply List.countP_congr
    intro x hx
    obtain ⟨hbx, hby, hbz⟩ := mem_lattice hx
    simp only [decide_eq_true_eq, Bool.and_eq_true]
    exact pointRoute_face1 lvl co hl hco x.1 x.2.1 x.2.2 hbx hby hbz
  rw [hcg, countP_lattice_prod lvl (fun m => decide (m = 0)) (fun m => decide (1 ≤ m ∧ m ≤ lvl - 1)) (fun m => decide (1 ≤ m ∧ m ≤ lvl - 1)),
    coords_countP_eq_zero lvl (by omega), coords_countP_interior lvl hl]
  ring

theorem lattice_count_face2 (lvl : Int) (hl : 2 ≤ lvl) (co : ℚ) (hco : 0 < co) :
    (lattice lvl).countP (fun p => decide (pointRoute lvl co p.1 p.2.1 p.2.2 = some 2))
      = (lvl - 1).toNat * (lvl - 1).toNat := by
  have hcg : (lattice lvl).countP
        (fun p => decide (pointRoute lvl co p.1 p.2.1 p.2.2 = some 2))
      = (lattice lvl).countP (fun p =>
          (fun m => decide (1 ≤ m ∧ m ≤ lvl - 1)) p.1 &&
            ((fun m => decide (m = lvl)) p.2.1 && (fun m => decide (1 ≤ m ∧ m ≤ lvl - 1)) p.2.2)) := by
    apply List.countP_congr
    intro x hx
    obtain ⟨hbx, hby, hbz⟩ := mem_lattice hx
    simp only [decide_eq_true_eq, Bool.and_eq_true]
    exact pointRoute_face2 lvl co hl hco x.1 x.2.1 x.2.2 hbx hby hbz
  rw [hcg, countP_lattice_prod lvl (fun m => decide (1 ≤ m ∧ m ≤ lvl - 1)) (fun m => decide (m = lvl)) (fun m => decide (1 ≤ m ∧ m ≤ lvl - 1)),
    coords_countP_interior lvl hl, coords_countP_eq_lvl lvl (by omega)]
  ring

theorem lattice_count_face3 (lvl : Int) (hl : 2 ≤ lvl) (co : ℚ) (hco : 0 < co) :
    (lattice lvl).countP (fun p => decide (pointRoute lvl co p.1 p.2.1 p.2.2 = some 3))
      = (lvl - 1).toNat * (lvl - 1).toNat := by
  have hcg : (lattice lvl).countP
        (fun p => decide (pointRoute lvl co p.1 p.2.1 p.2.2 = some 3))
      = (lattice lvl).countP (fun p =>
          (fun m => decide (1 ≤ m ∧ m ≤ lvl - 1)) p.1 &&
            ((fun m => decide (m = 0)) p.2.1 && (fun m => decide (1 ≤ m ∧ m ≤ lvl - 1)) p.2.2)) := by
    apply List.countP_congr
    intro x hx
    obtain ⟨hbx, hby, hbz⟩ := mem_lattice hx
    simp only [decide_eq_true_eq, Bool.and_eq_true]
    exact pointRoute_face3 lvl co hl hco x.1 x.2.1 x.2.2 hbx hby hbz
  rw [hcg, countP_lattice_prod lvl (fun m => decide (1 ≤ m ∧ m ≤ lvl - 1)) (fun m => decide (m = 0)) (fun m => decide (1 ≤ m ∧ m ≤ lvl - 1)),
    coords_countP_interior lvl hl, coords_countP_eq_zero lvl (by omega)]
  ring

theorem lattice_count_face4 (lvl : Int) (hl : 2 ≤ lvl) (co : ℚ) (hco : 0 < co) :
    (lattice lvl).countP (fun p => decide (pointRoute lvl co p.1 p.2.1 p.2.2 = some 4))
      = (lvl - 1).toNat * (lvl - 1).toNat := by
  have hcg : (lattice lvl).countP
        (fun p => decide (pointRoute lvl co p.1 p.2.1 p.2.2 = some 4))
      = (lattice lvl).countP (fun p =>
          (fun m => decide (1 ≤ m ∧ m ≤ lvl - 1)) p.1 &&
            ((fun m => decide (1 ≤ m ∧ m ≤ lvl - 1)) p.2.1 && (fun m => decide (m = lvl)) p.2.2)) := by
    apply List.countP_congr
    intro x hx
    obtain ⟨hbx, hby, hbz⟩ := mem_lattice hx
    simp only [decide_eq_true_eq, Bool.and_eq_true]
    exact pointRoute_face4 lvl co hl hco x.1 x.2.1 x.2.2 hbx hby hbz
  rw [hcg, countP_lattice_prod lvl (fun m => decide (1 ≤ m ∧ m ≤ lvl - 1)) (fun m => decide (1 ≤ m ∧ m ≤ lvl - 1)) (fun m => decide (m = lvl)),
    coords_countP_interior lvl hl, coords_countP_eq_lvl lvl (by omega)]
  ring

theorem lattice_count_face5 (lvl : Int) (hl : 2 ≤ lvl) (co : ℚ) (hco : 0 < co) :
    (lattice lvl).countP (fun p => decide (pointRoute lvl co p.1 p.2.1 p.2.2 = some 5))
      = (lvl - 1).toNat * (lvl - 1).toNat := by
  have hcg : (lattice lvl).countP
        (fun p => decide (pointRoute lvl co p.1 p.2.1 p.2.2 = some 5))
      = (lattice lvl).countP (fun p =>
          (fun m => decide (1 ≤ m ∧ m ≤ lvl - 1)) p.1 &&
            ((fun m => decide (1 ≤ m ∧ m ≤ lvl - 1)) p.2.1 && (fun m => decide (m = 0)) p.2.2)) := by
    apply List.countP_congr
    intro x hx
    obtain ⟨hbx, hby, hbz⟩ := mem_lattice hx
    simp only [decide_eq_true_eq, Bool.and_eq_true]
    exact pointRoute_face5 lvl co hl hco x.1 x.2.1 x.2.2 hbx hby hbz
  rw [hcg, countP_lattice_prod lvl (fun m => decide (1 ≤ m ∧ m ≤ lvl - 1)) (fun m => decide (1 ≤ m ∧ m ≤ lvl - 1)) (fun m => decide (m = 0)),
    coords_countP_interior lvl hl, coords_countP_eq_zero lvl (by omega)]
  ring

theorem trooperCo_pos (lvl : Int) (hl : 2 ≤ lvl) : 0 < trooperCo lvl := by
  unfold trooperCo trooperCubeSize
  have h1 : (0 : ℚ) < (lvl : ℚ) + 1 := by
    have h2 : (2 : ℚ) ≤ (lvl : ℚ) := by exact_mod_cast hl
    linarith
  have h3 : (0 : ℚ) < 1 / ((lvl : ℚ) + 1) := by
    rw [one_div]
    exact inv_pos.mpr h1
  have h4 : (0 : ℚ) < (1 : ℚ) / 2 := by norm_num
  exact mul_pos h3 h4

/-- C10: immediately after construction at any level `L ≥ 2`, every panel in
the trooper's bits has count `4·(L-1)²` — exactly half its capacity
`8·(L-1)²` — and in particular is never full.  (The scan routes the
`(L-1)²` interior points of each face to that face's panel, and each
`addCube` adds 4 to the panel's count.) -/
theorem panel_construction_count (lvl : Int) (hl : 2 ≤ lvl) :
    ∀ blk : Block, TBit.block blk ∈ (newTrooper lvl).bits →
      blk.ccnt = 4 * (lvl - 1) * (lvl - 1) ∧
        blk.cmax = 8 * (lvl - 1) * (lvl - 1) ∧
        2 * blk.ccnt = blk.cmax ∧ blk.ccnt < blk.cmax := by
  intro blk hmem
  have hco := trooperCo_pos lvl hl
  have key : ∀ i : Nat, i < 6 → blk = blockAt (trooperFold lvl) i →
      blk.ccnt = 4 * (lvl - 1) * (lvl - 1) ∧
        blk.cmax = 8 * (lvl - 1) * (lvl - 1) ∧
        2 * blk.ccnt = blk.cmax ∧ blk.ccnt < blk.cmax := by
    intro i hi hblk
    have hcc := foldl_blockAt_ccnt lvl (trooperCo lvl) (trooperCubeSize lvl) i hi
      (lattice lvl) (trooperStart lvl)
    have hcm := foldl_blockAt_cmax lvl (trooperCo lvl) (trooperCubeSize lvl) i hi
      (lattice lvl) (trooperStart lvl)
    have hstart_c : (blockAt (trooperStart lvl) i).ccnt = 0 := by
      interval_cases i <;> rfl
    have hstart_m : (blockAt (trooperStart lvl) i).cmax = (lvl - 1) * (lvl - 1) * 8 := by
      interval_cases i <;> rfl
    have hcount : (lattice lvl).countP
        (fun p => decide (pointRoute lvl (trooperCo lvl) p.1 p.2.1 p.2.2 = some i))
        = (lvl - 1).toNat * (lvl - 1).toNat := by
      interval_cases i
      · exact lattice_count_face0 lvl hl _ hco
      · exact lattice_count_face1 lvl hl _ hco
      · exact lattice_count_face2 lvl hl _ hco
      · exact lattice_count_face3 lvl hl _ hco
      · exact lattice_count_face4 lvl hl _ hco
      · exact lattice_count_face5 lvl hl _ hco
    rw [hstart_c, hcount] at hcc
    rw [hstart_m] at hcm
    have ht : (((lvl - 1).toNat : Nat) : Int) = lvl - 1 := by omega
    have hccnt : blk.ccnt = 4 * (lvl - 1) * (lvl - 1) := by
      rw [hblk]
      show (blockAt ((lattice lvl).foldl
        (latticeBody lvl (trooperCo lvl) (trooperCubeSize lvl)) (trooperStart lvl)) i).ccnt = _
      rw [hcc]
      push_cast
      rw [ht]
      ring
    have hcmax : blk.cmax = 8 * (lvl - 1) * (lvl - 1) := by
      rw [hblk]
      show (blockAt ((lattice lvl).foldl
        (latticeBody lvl (trooperCo lvl) (trooperCubeSize lvl)) (trooperStart lvl)) i).cmax = _
      rw [hcm]
      ring
    refine ⟨hccnt, hcmax, by rw [hccnt, hcmax]; ring, ?_⟩
    rw [hccnt, hcmax]
    have h1 : (1 : Int) ≤ lvl - 1 := by omega
    nlinarith [mul_le_mul h1 h1 (by omega : (0 : Int) ≤ 1) (by omega : (0 : Int) ≤ lvl - 1)]
  unfold newTrooper at hmem
  rw [if_neg (by omega)] at hmem
  dsimp only at hmem
  rw [List.mem_append] at hmem
  rcases hmem with hmem | hmem
  · simp only [List.mem_cons, List.not_mem_nil, or_false] at hmem
    rcases hmem with h | h | h | h | h | h
    · injection h with h2
      exact key 0 (by omega) h2
    · injection h with h2
      exact key 1 (by omega) h2
    · injection h with h2
      exact key 2 (by omega) h2
    · injection h with h2
      exact key 3 (by omega) h2
    · injection h with h2
      exact key 4 (by omega) h2
    · injection h with h2
      exact key 5 (by omega) h2
  · exfalso
    rw [List.mem_map] at hmem
    obtain ⟨c, _, hc⟩ := hmem
    exact TBit.noConfusion hc

theorem panel_construction_count_witness :
    ((2 : Int) ≤ 2 ∧ TBit.block (trooperFold 2).b0 ∈ (newTrooper 2).bits) ∧
      ((trooperFold 2).b0.ccnt = 4 * (2 - 1) * (2 - 1) ∧
        (trooperFold 2).b0.cmax = 8 * (2 - 1) * (2 - 1) ∧
        2 * (trooperFold 2).b0.ccnt = (trooperFold 2).b0.cmax ∧
        (trooperFold 2).b0.ccnt < (trooperFold 2).b0.cmax) :=
  ⟨⟨by decide, by with_unfolding_all decide⟩,
    panel_construction_count 2 (by decide) ((trooperFold 2).b0)
      (by with_unfolding_all decide)⟩

/-- C2 counterexample: the program's level-1 panels have capacity 0, so such
a node has `count = capacity` (both 0); yet `detach` on it returns `false`
(it is the empty case, not the fully-merged one), leaves the count at 0 —
not `capacity - 1 = -1` — and performs no reset.  The claim's "detaching
from a node with count == capacity yields capacity - 1" therefore fails on
every cluster/panel node unless the capacity is positive. -/
theorem detach_full_counterexample :
    blockL1.ccnt = blockL1.cmax ∧
      (blockDetach blockL1).2 = false ∧
      (blockDetach blockL1).1.ccnt = blockL1.ccnt ∧
      ¬ ((blockDetach blockL1).1.ccnt = blockL1.cmax - 1) := by
  with_unfolding_all decide
